import Mathlib

/-!
Shallow embedding of the labelord repository (reconciliation / diff
algorithm, webhook relay with echo suppression, signature-checked
notification endpoint, run processor) together with theorems settling the
frozen claims about its specification.

Python dicts with string keys are modelled as association lists with the
usual dict semantics: lookup returns the first (and, for dicts built only
through `dinsert`, unique) binding; assignment to an existing key replaces
the value in place; assignment to a fresh key appends at the end.
-/

namespace Labelord

/-! ## Dictionaries (Python `dict` with string keys) -/

/-- First-match lookup, i.e. `d[k]` / `d.get(k)` on a Python dict. -/
def dlookup {α : Type} : List (String × α) → String → Option α
  | [], _ => none
  | p :: l, k => if p.1 = k then some p.2 else dlookup l k

/-- Python dict assignment `d[k] = v`: replace in place when the key is
present, append otherwise. -/
def dinsert {α : Type} (l : List (String × α)) (k : String) (v : α) :
    List (String × α) :=
  if (dlookup l k).isSome then
    l.map (fun p => if p.1 = k then (k, v) else p)
  else l ++ [(k, v)]

/-- The keys of a dict are pairwise distinct. -/
def keysNodup {α : Type} (l : List (String × α)) : Prop :=
  (l.map Prod.fst).Nodup

@[simp] theorem dlookup_nil {α : Type} (k : String) :
    dlookup ([] : List (String × α)) k = none := rfl

@[simp] theorem dlookup_cons {α : Type} (p : String × α) (l : List (String × α))
    (k : String) :
    dlookup (p :: l) k = if p.1 = k then some p.2 else dlookup l k := rfl

theorem dlookup_append {α : Type} (l₁ l₂ : List (String × α)) (k : String) :
    dlookup (l₁ ++ l₂) k = ((dlookup l₁ k).or (dlookup l₂ k)) := by
  induction l₁ with
  | nil => simp
  | cons p l ih =>
    by_cases h : p.1 = k <;> simp [h, ih]

theorem dlookup_isSome_of_mem {α : Type} {l : List (String × α)} {p : String × α}
    (h : p ∈ l) : (dlookup l p.1).isSome := by
  induction l with
  | nil => cases h
  | cons q l ih =>
    rcases List.mem_cons.1 h with h | h
    · subst h; simp
    · by_cases hq : q.1 = p.1 <;> simp [hq, ih h]

theorem mem_of_dlookup_eq_some {α : Type} {l : List (String × α)} {k : String}
    {v : α} (h : dlookup l k = some v) : (k, v) ∈ l := by
  induction l with
  | nil => simp at h
  | cons q l ih =>
    by_cases hq : q.1 = k
    · simp only [dlookup_cons, hq, if_true, Option.some.injEq] at h
      apply List.mem_cons.2
      left
      cases q
      simp_all
    · simp only [dlookup_cons, hq, if_false] at h
      exact List.mem_cons_of_mem _ (ih h)

theorem dlookup_eq_some_of_mem_nodup {α : Type} {l : List (String × α)}
    {k : String} {v : α} (hnd : keysNodup l) (h : (k, v) ∈ l) :
    dlookup l k = some v := by
  induction l with
  | nil => cases h
  | cons q l ih =>
    rcases List.mem_cons.1 h with h | h
    · subst h; simp
    · have hnd2 : q.1 ∉ l.map Prod.fst ∧ (l.map Prod.fst).Nodup :=
        List.nodup_cons.1 (by simpa [keysNodup] using hnd)
      have hq : q.1 ≠ k := by
        intro he
        apply hnd2.1
        rw [he]
        exact List.mem_map_of_mem Prod.fst h
      simp [hq, ih hnd2.2 h]

theorem dlookup_dinsert_self {α : Type} (l : List (String × α)) (k : String)
    (v : α) : dlookup (dinsert l k v) k = some v := by
  unfold dinsert
  by_cases h : (dlookup l k).isSome
  · simp only [h, if_true]
    induction l with
    | nil => simp at h
    | cons p l ih =>
      by_cases hp : p.1 = k
      · simp [hp]
      · simp only [dlookup_cons, hp, if_false] at h
        simpa [hp] using ih h
  · have hnone : dlookup l k = none := by
      cases hl : dlookup l k
      · rfl
      · simp [hl] at h
    rw [if_neg h, dlookup_append, hnone]
    simp [dlookup]

theorem dlookup_map_replace_ne {α : Type} (l : List (String × α))
    (k k' : String) (v : α) (h : k' ≠ k) :
    dlookup (l.map (fun p => if p.1 = k then (k, v) else p)) k' =
      dlookup l k' := by
  induction l with
  | nil => rfl
  | cons p l ih =>
    by_cases hp : p.1 = k
    · simp [hp, Ne.symm h, ih]
    · by_cases hk : p.1 = k' <;> simp [hp, hk, ih, h]

theorem dlookup_dinsert_ne {α : Type} (l : List (String × α)) (k k' : String)
    (v : α) (h : k' ≠ k) : dlookup (dinsert l k v) k' = dlookup l k' := by
  unfold dinsert
  by_cases hs : (dlookup l k).isSome
  · simp only [hs, if_true]
    exact dlookup_map_replace_ne l k k' v h
  · rw [if_neg hs, dlookup_append]
    cases hl : dlookup l k' <;> simp [hl, dlookup, Ne.symm h, Option.or]

theorem keysNodup_nil {α : Type} : keysNodup ([] : List (String × α)) := by
  simp [keysNodup]

theorem keysNodup_dinsert {α : Type} (l : List (String × α)) (k : String)
    (v : α) (h : keysNodup l) : keysNodup (dinsert l k v) := by
  unfold dinsert
  by_cases hs : (dlookup l k).isSome
  · simp only [hs, if_true]
    simp only [keysNodup] at h ⊢
    have : (l.map (fun p => if p.1 = k then (k, v) else p)).map Prod.fst =
        l.map Prod.fst := by
      simp only [List.map_map]
      apply List.map_congr_left
      intro p _
      by_cases hp : p.1 = k <;> simp [hp]
    rw [this]
    exact h
  · rw [if_neg hs]
    simp only [keysNodup, List.map_append, List.map_cons, List.map_nil] at h ⊢
    rw [List.nodup_append]
    refine ⟨h, List.nodup_singleton _, ?_⟩
    intro a ha hb
    simp only [List.mem_singleton] at hb
    subst hb
    rcases List.mem_map.1 ha with ⟨p, hp, hpk⟩
    have hsm := dlookup_isSome_of_mem hp
    rw [hpk] at hsm
    exact absurd hsm (by simpa using hs)

theorem dlookup_eq_none_iff {α : Type} (l : List (String × α)) (k : String) :
    dlookup l k = none ↔ k ∉ l.map Prod.fst := by
  induction l with
  | nil => simp
  | cons p l ih =>
    by_cases hp : p.1 = k
    · simp [hp]
    · simp [hp, ih, Ne.symm hp]

/-- Python's `str.lower()` (ASCII case folding), written structurally so
that it evaluates inside the kernel. -/
def pyLower (s : String) : String := String.mk (s.data.map Char.toLower)

/-! ## The diff algorithm (`RunModes` in labelord.py) -/

/-- A label set / label specification: Python dict from name to color. -/
abbrev LabelMap := List (String × String)

/-- A diff-plan component: dict from current name to the new (name, color). -/
abbrev DiffMap := List (String × (String × String))

/-- `RunModes._make_labels_dict`:
`{k.lower(): (k, v) for k, v in labels_spec.items()}`. -/
def make_labels_dict (labels : LabelMap) : DiffMap :=
  labels.foldl (fun d kv => dinsert d (pyLower kv.1) (kv.1, kv.2)) []

/-- One iteration of the `for name, color in labels_specs.items()` loop body
of `RunModes.update_mode`: the branch cascade on the case-insensitive index,
exact membership and color comparison. -/
def umStep (labels : LabelMap) (cu : DiffMap × DiffMap) (nc : String × String) :
    DiffMap × DiffMap :=
  match dlookup (make_labels_dict labels) (pyLower nc.1) with
  | none => (dinsert cu.1 nc.1 (nc.1, nc.2), cu.2)
  | some ov =>
    if dlookup labels nc.1 = none then
      (cu.1, dinsert cu.2 ov.1 (nc.1, nc.2))
    else if dlookup labels nc.1 = some nc.2 then cu
    else (cu.1, dinsert cu.2 nc.1 (nc.1, nc.2))

/-- The loop of `RunModes.update_mode`, threading the `create`/`update`
dicts. -/
def umGo (labels : LabelMap) (cu : DiffMap × DiffMap) :
    LabelMap → DiffMap × DiffMap
  | [] => cu
  | nc :: rest => umGo labels (umStep labels cu nc) rest

/-- `RunModes.update_mode`: returns `(create, update, {})`. -/
def update_mode (labels labels_specs : LabelMap) :
    DiffMap × DiffMap × DiffMap :=
  let cu := umGo labels ([], []) labels_specs
  (cu.1, cu.2, [])

/-- The loop of the `delete` dict comprehension of `RunModes.replace_mode`:
`{n: (n, c) for n, c in labels.items() if n not in labels_specs}`. -/
def delGo (labels_specs : LabelMap) (d : DiffMap) : LabelMap → DiffMap
  | [] => d
  | nc :: rest =>
    delGo labels_specs
      (if dlookup labels_specs nc.1 = none then dinsert d nc.1 (nc.1, nc.2)
       else d) rest

/-- `RunModes.replace_mode`: same `create`/`update` as `update_mode`, plus
the `delete` dict of current labels exactly absent from the spec. -/
def replace_mode (labels labels_specs : LabelMap) :
    DiffMap × DiffMap × DiffMap :=
  let cu := update_mode labels labels_specs
  (cu.1, cu.2.1, delGo labels_specs [] labels)

/-- What the `update_mode` loop does with one specification entry. -/
inductive SpecFate
  | mkNew
  | rename (old : String)
  | recolor
  | noop
deriving DecidableEq

/-- Classifier of the branch cascade in `RunModes.update_mode`. -/
def fate (labels : LabelMap) (name color : String) : SpecFate :=
  match dlookup (make_labels_dict labels) (pyLower name) with
  | none => .mkNew
  | some ov =>
    if dlookup labels name = none then .rename ov.1
    else if dlookup labels name = some color then .noop
    else .recolor

theorem umStep_eq_fate (labels : LabelMap) (cu : DiffMap × DiffMap)
    (nc : String × String) :
    umStep labels cu nc =
      match fate labels nc.1 nc.2 with
      | .mkNew => (dinsert cu.1 nc.1 (nc.1, nc.2), cu.2)
      | .rename old => (cu.1, dinsert cu.2 old (nc.1, nc.2))
      | .recolor => (cu.1, dinsert cu.2 nc.1 (nc.1, nc.2))
      | .noop => cu := by
  unfold umStep fate
  cases h : dlookup (make_labels_dict labels) (pyLower nc.1) with
  | none => simp
  | some ov =>
    by_cases h1 : dlookup labels nc.1 = none
    · simp [h1]
    · by_cases h2 : dlookup labels nc.1 = some nc.2 <;> simp [h1, h2]

/-- The specification entry `nc` puts a binding keyed `k` into `create`. -/
def writesC (labels : LabelMap) (k : String) (nc : String × String) : Prop :=
  nc.1 = k ∧ fate labels nc.1 nc.2 = .mkNew

/-- The specification entry `nc` puts a binding keyed `k` into `update`. -/
def writesU (labels : LabelMap) (k : String) (nc : String × String) : Prop :=
  fate labels nc.1 nc.2 = .rename k ∨
    (nc.1 = k ∧ fate labels nc.1 nc.2 = .recolor)

theorem umGo_append (labels : LabelMap) (cu : DiffMap × DiffMap)
    (l₁ l₂ : LabelMap) :
    umGo labels cu (l₁ ++ l₂) = umGo labels (umGo labels cu l₁) l₂ := by
  induction l₁ generalizing cu with
  | nil => rfl
  | cons nc l ih => simp [umGo, ih]

theorem umStep_create_lookup_pos {labels : LabelMap} {nc : String × String}
    {k : String} (cu : DiffMap × DiffMap) (hw : writesC labels k nc) :
    dlookup (umStep labels cu nc).1 k = some nc := by
  rw [umStep_eq_fate]
  rcases hw with ⟨h1, h2⟩
  rw [h2]
  subst h1
  simp [dlookup_dinsert_self]

theorem umStep_create_lookup_neg {labels : LabelMap} {nc : String × String}
    {k : String} (cu : DiffMap × DiffMap) (hw : ¬ writesC labels k nc) :
    dlookup (umStep labels cu nc).1 k = dlookup cu.1 k := by
  rw [umStep_eq_fate]
  unfold writesC at hw
  cases hf : fate labels nc.1 nc.2 with
  | mkNew =>
    have h1 : nc.1 ≠ k := fun he => hw ⟨he, hf⟩
    simp [dlookup_dinsert_ne _ _ _ _ (Ne.symm h1)]
  | rename old => simp
  | recolor => simp
  | noop => simp

theorem umStep_update_lookup_pos {labels : LabelMap} {nc : String × String}
    {k : String} (cu : DiffMap × DiffMap) (hw : writesU labels k nc) :
    dlookup (umStep labels cu nc).2 k = some nc := by
  rw [umStep_eq_fate]
  rcases hw with h | ⟨h1, h2⟩
  · rw [h]
    simp [dlookup_dinsert_self]
  · rw [h2]
    subst h1
    simp [dlookup_dinsert_self]

theorem umStep_update_lookup_neg {labels : LabelMap} {nc : String × String}
    {k : String} (cu : DiffMap × DiffMap) (hw : ¬ writesU labels k nc) :
    dlookup (umStep labels cu nc).2 k = dlookup cu.2 k := by
  rw [umStep_eq_fate]
  unfold writesU at hw
  push_neg at hw
  cases hf : fate labels nc.1 nc.2 with
  | mkNew => simp
  | rename old =>
    have hne : old ≠ k := by
      intro he
      exact absurd (hf.trans (by rw [he])) hw.1
    simp [dlookup_dinsert_ne _ _ _ _ (Ne.symm hne)]
  | recolor =>
    have hne : nc.1 ≠ k := fun he => (hw.2 he) hf
    simp [dlookup_dinsert_ne _ _ _ _ (Ne.symm hne)]
  | noop => simp

theorem umGo_create_no_writer {labels : LabelMap} {k : String}
    {l : LabelMap} (cu : DiffMap × DiffMap)
    (h : ∀ nc ∈ l, ¬ writesC labels k nc) :
    dlookup (umGo labels cu l).1 k = dlookup cu.1 k := by
  induction l generalizing cu with
  | nil => rfl
  | cons nc rest ih =>
    rw [umGo, ih _ (fun x hx => h x (List.mem_cons_of_mem _ hx))]
    exact umStep_create_lookup_neg cu (h nc (List.mem_cons_self _ _))

theorem umGo_update_no_writer {labels : LabelMap} {k : String}
    {l : LabelMap} (cu : DiffMap × DiffMap)
    (h : ∀ nc ∈ l, ¬ writesU labels k nc) :
    dlookup (umGo labels cu l).2 k = dlookup cu.2 k := by
  induction l generalizing cu with
  | nil => rfl
  | cons nc rest ih =>
    rw [umGo, ih _ (fun x hx => h x (List.mem_cons_of_mem _ hx))]
    exact umStep_update_lookup_neg cu (h nc (List.mem_cons_self _ _))

theorem umGo_create_last {labels : LabelMap} {k : String}
    {nc : String × String} {l₁ l₂ : LabelMap} (cu : DiffMap × DiffMap)
    (hw : writesC labels k nc) (h2 : ∀ x ∈ l₂, ¬ writesC labels k x) :
    dlookup (umGo labels cu (l₁ ++ nc :: l₂)).1 k = some nc := by
  rw [umGo_append, umGo]
  rw [umGo_create_no_writer _ h2]
  exact umStep_create_lookup_pos _ hw

theorem umGo_update_last {labels : LabelMap} {k : String}
    {nc : String × String} {l₁ l₂ : LabelMap} (cu : DiffMap × DiffMap)
    (hw : writesU labels k nc) (h2 : ∀ x ∈ l₂, ¬ writesU labels k x) :
    dlookup (umGo labels cu (l₁ ++ nc :: l₂)).2 k = some nc := by
  rw [umGo_append, umGo]
  rw [umGo_update_no_writer _ h2]
  exact umStep_update_lookup_pos _ hw

theorem umGo_create_sound {labels : LabelMap} {k : String} {v : String × String}
    {l : LabelMap} (cu : DiffMap × DiffMap)
    (h : dlookup (umGo labels cu l).1 k = some v) :
    dlookup cu.1 k = some v ∨ ∃ nc ∈ l, nc = v ∧ writesC labels k nc := by
  induction l generalizing cu with
  | nil => exact Or.inl h
  | cons nc rest ih =>
    rw [umGo] at h
    rcases ih _ h with h1 | ⟨x, hx, hxv, hxw⟩
    · by_cases hw : writesC labels k nc
      · rw [umStep_create_lookup_pos cu hw] at h1
        exact Or.inr ⟨nc, List.mem_cons_self _ _, by injection h1, hw⟩
      · rw [umStep_create_lookup_neg cu hw] at h1
        exact Or.inl h1
    · exact Or.inr ⟨x, List.mem_cons_of_mem _ hx, hxv, hxw⟩

theorem umGo_update_sound {labels : LabelMap} {k : String} {v : String × String}
    {l : LabelMap} (cu : DiffMap × DiffMap)
    (h : dlookup (umGo labels cu l).2 k = some v) :
    dlookup cu.2 k = some v ∨ ∃ nc ∈ l, nc = v ∧ writesU labels k nc := by
  induction l generalizing cu with
  | nil => exact Or.inl h
  | cons nc rest ih =>
    rw [umGo] at h
    rcases ih _ h with h1 | ⟨x, hx, hxv, hxw⟩
    · by_cases hw : writesU labels k nc
      · rw [umStep_update_lookup_pos cu hw] at h1
        exact Or.inr ⟨nc, List.mem_cons_self _ _, by injection h1, hw⟩
      · rw [umStep_update_lookup_neg cu hw] at h1
        exact Or.inl h1
    · exact Or.inr ⟨x, List.mem_cons_of_mem _ hx, hxv, hxw⟩

theorem umGo_keysNodup {labels : LabelMap} {l : LabelMap}
    (cu : DiffMap × DiffMap) (h1 : keysNodup cu.1) (h2 : keysNodup cu.2) :
    keysNodup (umGo labels cu l).1 ∧ keysNodup (umGo labels cu l).2 := by
  induction l generalizing cu with
  | nil => exact ⟨h1, h2⟩
  | cons nc rest ih =>
    rw [umGo]
    apply ih
    · rw [umStep_eq_fate]
      cases fate labels nc.1 nc.2 <;>
        first
          | exact h1
          | exact keysNodup_dinsert _ _ _ h1
    · rw [umStep_eq_fate]
      cases fate labels nc.1 nc.2 <;>
        first
          | exact h2
          | exact keysNodup_dinsert _ _ _ h2

theorem make_labels_dict_sound {labels : LabelMap} {h : String}
    {v : String × String}
    (hl : dlookup (make_labels_dict labels) h = some v) :
    v ∈ labels ∧ (pyLower v.1) = h := by
  suffices H : ∀ (l : LabelMap) (d : DiffMap),
      dlookup (l.foldl (fun d kv => dinsert d (pyLower kv.1) (kv.1, kv.2)) d) h =
        some v →
      dlookup d h = some v ∨ (v ∈ l ∧ (pyLower v.1) = h) by
    rcases H labels [] hl with h1 | h1
    · simp at h1
    · exact h1
  intro l
  induction l with
  | nil => exact fun d hd => Or.inl hd
  | cons kv rest ih =>
    intro d hd
    rw [List.foldl_cons] at hd
    rcases ih _ hd with h1 | h1
    · by_cases he : h = (pyLower kv.1)
      · subst he
        rw [dlookup_dinsert_self] at h1
        refine Or.inr ⟨?_, ?_⟩
        · injection h1 with h1
          subst h1
          exact List.mem_cons_self _ _
        · injection h1 with h1
          subst h1
          rfl
      · rw [dlookup_dinsert_ne _ _ _ _ he] at h1
        exact Or.inl h1
    · exact Or.inr ⟨List.mem_cons_of_mem _ h1.1, h1.2⟩

theorem dlookup_dinsert_isSome {α : Type} (l : List (String × α))
    (k k' : String) (v : α) (h : (dlookup l k').isSome) :
    (dlookup (dinsert l k v) k').isSome := by
  by_cases he : k' = k
  · subst he
    rw [dlookup_dinsert_self]
    rfl
  · rw [dlookup_dinsert_ne _ _ _ _ he]
    exact h

theorem make_labels_dict_complete {labels : LabelMap} {kc : String × String}
    (hm : kc ∈ labels) :
    (dlookup (make_labels_dict labels) (pyLower kc.1)).isSome := by
  suffices H : ∀ (l : LabelMap) (d : DiffMap),
      kc ∈ l ∨ (dlookup d (pyLower kc.1)).isSome →
      (dlookup (l.foldl (fun d kv => dinsert d (pyLower kv.1) (kv.1, kv.2)) d)
        (pyLower kc.1)).isSome by
    exact H labels [] (Or.inl hm)
  intro l
  induction l with
  | nil =>
    intro d hd
    rcases hd with hd | hd
    · cases hd
    · exact hd
  | cons kv rest ih =>
    intro d hd
    rw [List.foldl_cons]
    apply ih
    rcases hd with hd | hd
    · rcases List.mem_cons.1 hd with hd | hd
      · subst hd
        right
        rw [dlookup_dinsert_self]
        rfl
      · exact Or.inl hd
    · exact Or.inr (dlookup_dinsert_isSome _ _ _ _ hd)

theorem fate_noop_iff {labels : LabelMap} {n c : String} :
    fate labels n c = .noop ↔ dlookup labels n = some c := by
  constructor
  · intro hf
    unfold fate at hf
    cases hx : dlookup (make_labels_dict labels) (pyLower n) with
    | none => simp only [hx] at hf; cases hf
    | some ov =>
      simp only [hx] at hf
      by_cases h1 : dlookup labels n = none
      · rw [if_pos h1] at hf; cases hf
      · rw [if_neg h1] at hf
        by_cases h2 : dlookup labels n = some c
        · exact h2
        · rw [if_neg h2] at hf; cases hf
  · intro hl
    have hmem : (n, c) ∈ labels := mem_of_dlookup_eq_some hl
    have hx := make_labels_dict_complete hmem
    unfold fate
    cases hxx : dlookup (make_labels_dict labels) (pyLower n) with
    | none => rw [hxx] at hx; cases hx
    | some ov => simp [hl]

theorem writesU_key_isSome {labels : LabelMap} {k : String}
    {nc : String × String} (hw : writesU labels k nc) :
    (dlookup labels k).isSome := by
  rcases hw with hf | ⟨h1, hf⟩
  · unfold fate at hf
    cases hx : dlookup (make_labels_dict labels) (pyLower nc.1) with
    | none => simp only [hx] at hf; cases hf
    | some ov =>
      simp only [hx] at hf
      have hov := make_labels_dict_sound hx
      by_cases h1 : dlookup labels nc.1 = none
      · rw [if_pos h1] at hf
        injection hf with hf
        subst hf
        exact dlookup_isSome_of_mem hov.1
      · rw [if_neg h1] at hf
        by_cases h2 : dlookup labels nc.1 = some nc.2
        · rw [if_pos h2] at hf; cases hf
        · rw [if_neg h2] at hf; cases hf
  · subst h1
    unfold fate at hf
    cases hx : dlookup (make_labels_dict labels) (pyLower nc.1) with
    | none => simp only [hx] at hf; cases hf
    | some ov =>
      simp only [hx] at hf
      by_cases h1 : dlookup labels nc.1 = none
      · rw [if_pos h1] at hf; cases hf
      · cases hll : dlookup labels nc.1
        · exact absurd hll h1
        · rfl

theorem writesC_key_none {labels : LabelMap} {k : String}
    {nc : String × String} (hw : writesC labels k nc) :
    dlookup labels k = none := by
  rcases hw with ⟨h1, hf⟩
  subst h1
  unfold fate at hf
  cases hx : dlookup (make_labels_dict labels) (pyLower nc.1) with
  | some ov =>
    simp only [hx] at hf
    split at hf
    · cases hf
    · split at hf <;> cases hf
  | none =>
    cases hll : dlookup labels nc.1 with
    | none => rfl
    | some c =>
      have hmem : (nc.1, c) ∈ labels := mem_of_dlookup_eq_some hll
      have := make_labels_dict_complete hmem
      rw [hx] at this
      cases this

/-- The names of a specification dict are pairwise distinct even after
lower-casing (no two specification names differ only in case). -/
def specLowerNodup (specs : LabelMap) : Prop :=
  (specs.map (fun p => (pyLower p.1))).Nodup

theorem specLowerNodup.keysNodup {specs : LabelMap}
    (h : specLowerNodup specs) : keysNodup specs := by
  unfold specLowerNodup at h
  have : specs.map (fun p => (pyLower p.1)) =
      (specs.map Prod.fst).map pyLower := by
    rw [List.map_map]
    rfl
  rw [this] at h
  exact h.of_map _

theorem specLowerNodup.inj {specs : LabelMap} (h : specLowerNodup specs)
    {nc nd : String × String} (h1 : nc ∈ specs) (h2 : nd ∈ specs)
    (he : (pyLower nc.1) = (pyLower nd.1)) : nc = nd :=
  List.inj_on_of_nodup_map h h1 h2 he

theorem fate_rename_lower {labels : LabelMap} {n c old : String}
    (hf : fate labels n c = .rename old) :
    (pyLower old) = (pyLower n) ∧ dlookup labels n = none := by
  unfold fate at hf
  cases hx : dlookup (make_labels_dict labels) (pyLower n) with
  | none => simp only [hx] at hf; cases hf
  | some ov =>
    simp only [hx] at hf
    have hov := make_labels_dict_sound hx
    by_cases h1 : dlookup labels n = none
    · rw [if_pos h1] at hf
      injection hf with hf
      subst hf
      exact ⟨hov.2, h1⟩
    · rw [if_neg h1] at hf
      split at hf <;> cases hf

theorem writesU_lower {labels : LabelMap} {k : String} {nc : String × String}
    (hw : writesU labels k nc) : (pyLower nc.1) = (pyLower k) := by
  rcases hw with hf | ⟨h1, _⟩
  · exact (fate_rename_lower hf).1.symm
  · rw [h1]

theorem writesC_lower {labels : LabelMap} {k : String} {nc : String × String}
    (hw : writesC labels k nc) : (pyLower nc.1) = (pyLower k) := by
  rw [hw.1]

/-- With no case-colliding names in the specification, at most one
specification entry writes a given key of the `update` dict. -/
theorem writesU_unique {labels specs : LabelMap} (hS : specLowerNodup specs)
    {k : String} {nc nd : String × String} (h1 : nc ∈ specs) (h2 : nd ∈ specs)
    (hw1 : writesU labels k nc) (hw2 : writesU labels k nd) : nc = nd :=
  hS.inj h1 h2 ((writesU_lower hw1).trans (writesU_lower hw2).symm)

theorem writesC_unique {labels specs : LabelMap} (hS : specLowerNodup specs)
    {k : String} {nc nd : String × String} (h1 : nc ∈ specs) (h2 : nd ∈ specs)
    (hw1 : writesC labels k nc) (hw2 : writesC labels k nd) : nc = nd :=
  hS.inj h1 h2 ((writesC_lower hw1).trans (writesC_lower hw2).symm)

theorem update_mode_update_lookup {labels specs : LabelMap}
    (hS : specLowerNodup specs) {k : String} {nc : String × String}
    (hmem : nc ∈ specs) (hw : writesU labels k nc) :
    dlookup (update_mode labels specs).2.1 k = some nc := by
  rcases List.append_of_mem hmem with ⟨l₁, l₂, he⟩
  have hnd : keysNodup specs := hS.keysNodup
  have hnotail : ∀ x ∈ l₂, ¬ writesU labels k x := by
    intro x hx hwx
    have hxs : x ∈ specs := by
      rw [he]
      exact List.mem_append_right _ (List.mem_cons_of_mem _ hx)
    have := writesU_unique hS hxs hmem hwx hw
    subst this
    rw [he] at hnd
    unfold keysNodup at hnd
    simp only [List.map_append, List.map_cons] at hnd
    rcases List.nodup_append.1 hnd with ⟨-, hnd2, -⟩
    rcases List.nodup_cons.1 hnd2 with ⟨hni, -⟩
    exact hni (List.mem_map_of_mem Prod.fst hx)
  show dlookup (umGo labels ([], []) specs).2 k = some nc
  rw [he]
  exact umGo_update_last _ hw hnotail

theorem update_mode_create_lookup {labels specs : LabelMap}
    (hS : specLowerNodup specs) {k : String} {nc : String × String}
    (hmem : nc ∈ specs) (hw : writesC labels k nc) :
    dlookup (update_mode labels specs).1 k = some nc := by
  rcases List.append_of_mem hmem with ⟨l₁, l₂, he⟩
  have hnd : keysNodup specs := hS.keysNodup
  have hnotail : ∀ x ∈ l₂, ¬ writesC labels k x := by
    intro x hx hwx
    have hxs : x ∈ specs := by
      rw [he]
      exact List.mem_append_right _ (List.mem_cons_of_mem _ hx)
    have := writesC_unique hS hxs hmem hwx hw
    subst this
    rw [he] at hnd
    unfold keysNodup at hnd
    simp only [List.map_append, List.map_cons] at hnd
    rcases List.nodup_append.1 hnd with ⟨-, hnd2, -⟩
    rcases List.nodup_cons.1 hnd2 with ⟨hni, -⟩
    exact hni (List.mem_map_of_mem Prod.fst hx)
  show dlookup (umGo labels ([], []) specs).1 k = some nc
  rw [he]
  exact umGo_create_last _ hw hnotail

theorem mem_dinsert {α : Type} {l : List (String × α)} {k : String} {v : α}
    {q : String × α} (h : q ∈ dinsert l k v) : q = (k, v) ∨ q ∈ l := by
  unfold dinsert at h
  by_cases hs : (dlookup l k).isSome
  · rw [if_pos hs] at h
    rcases List.mem_map.1 h with ⟨p, hp, hq⟩
    by_cases hpk : p.1 = k
    · rw [if_pos hpk] at hq
      exact Or.inl hq.symm
    · rw [if_neg hpk] at hq
      exact Or.inr (hq ▸ hp)
  · rw [if_neg hs] at h
    rcases List.mem_append.1 h with h | h
    · exact Or.inr h
    · simp only [List.mem_singleton] at h
      exact Or.inl h

theorem umGo_create_mem {labels specs₀ : LabelMap} :
    ∀ (l : LabelMap) (cu : DiffMap × DiffMap),
      (∀ p ∈ cu.1, ∃ nc ∈ specs₀, p.2 = nc ∧ writesC labels p.1 nc) →
      (∀ nc ∈ l, nc ∈ specs₀) →
      ∀ p ∈ (umGo labels cu l).1, ∃ nc ∈ specs₀, p.2 = nc ∧ writesC labels p.1 nc := by
  intro l
  induction l with
  | nil => exact fun cu hcu _ => hcu
  | cons nc rest ih =>
    intro cu hcu hl
    apply ih
    · intro p hp
      rw [umStep_eq_fate] at hp
      rcases hf : fate labels nc.1 nc.2 <;> rw [hf] at hp
      case mkNew =>
        rcases mem_dinsert hp with hq | hq
        · subst hq
          exact ⟨nc, hl nc (List.mem_cons_self _ _), rfl, rfl, hf⟩
        · exact hcu p hq
      all_goals exact hcu p hp
    · exact fun x hx => hl x (List.mem_cons_of_mem _ hx)

theorem umGo_update_mem {labels specs₀ : LabelMap} :
    ∀ (l : LabelMap) (cu : DiffMap × DiffMap),
      (∀ p ∈ cu.2, ∃ nc ∈ specs₀, p.2 = nc ∧ writesU labels p.1 nc) →
      (∀ nc ∈ l, nc ∈ specs₀) →
      ∀ p ∈ (umGo labels cu l).2, ∃ nc ∈ specs₀, p.2 = nc ∧ writesU labels p.1 nc := by
  intro l
  induction l with
  | nil => exact fun cu hcu _ => hcu
  | cons nc rest ih =>
    intro cu hcu hl
    apply ih
    · intro p hp
      rw [umStep_eq_fate] at hp
      rcases hf : fate labels nc.1 nc.2 <;> rw [hf] at hp
      case rename old =>
        rcases mem_dinsert hp with hq | hq
        · subst hq
          exact ⟨nc, hl nc (List.mem_cons_self _ _), rfl, Or.inl hf⟩
        · exact hcu p hq
      case recolor =>
        rcases mem_dinsert hp with hq | hq
        · subst hq
          exact ⟨nc, hl nc (List.mem_cons_self _ _), rfl, Or.inr ⟨rfl, hf⟩⟩
        · exact hcu p hq
      all_goals exact hcu p hp
    · exact fun x hx => hl x (List.mem_cons_of_mem _ hx)

theorem update_mode_create_mem {labels specs : LabelMap}
    {p : String × (String × String)}
    (hp : p ∈ (update_mode labels specs).1) :
    ∃ nc ∈ specs, p.2 = nc ∧ writesC labels p.1 nc :=
  umGo_create_mem specs ([], []) (by intro q hq; cases hq) (fun _ h => h) p hp

theorem update_mode_update_mem {labels specs : LabelMap}
    {p : String × (String × String)}
    (hp : p ∈ (update_mode labels specs).2.1) :
    ∃ nc ∈ specs, p.2 = nc ∧ writesU labels p.1 nc :=
  umGo_update_mem specs ([], []) (by intro q hq; cases hq) (fun _ h => h) p hp

theorem update_mode_keysNodup (labels specs : LabelMap) :
    keysNodup (update_mode labels specs).1 ∧
      keysNodup (update_mode labels specs).2.1 :=
  umGo_keysNodup ([], []) keysNodup_nil keysNodup_nil

@[simp] theorem update_mode_delete (labels specs : LabelMap) :
    (update_mode labels specs).2.2 = [] := rfl

@[simp] theorem replace_mode_create (labels specs : LabelMap) :
    (replace_mode labels specs).1 = (update_mode labels specs).1 := rfl

@[simp] theorem replace_mode_update (labels specs : LabelMap) :
    (replace_mode labels specs).2.1 = (update_mode labels specs).2.1 := rfl

@[simp] theorem replace_mode_delete (labels specs : LabelMap) :
    (replace_mode labels specs).2.2 = delGo specs [] labels := rfl

theorem delGo_lookup_notin {specs : LabelMap} {k : String} :
    ∀ (l : LabelMap) (d : DiffMap), k ∉ l.map Prod.fst →
      dlookup (delGo specs d l) k = dlookup d k := by
  intro l
  induction l with
  | nil => exact fun d _ => rfl
  | cons nc rest ih =>
    intro d hk
    rw [delGo]
    rw [ih _ (fun h => hk (List.mem_cons_of_mem _ h))]
    split
    · exact dlookup_dinsert_ne _ _ _ _
        (fun he => hk (he ▸ List.mem_cons_self _ _))
    · rfl

theorem delGo_lookup_spec_some {specs : LabelMap} {k : String}
    (hs : (dlookup specs k).isSome) :
    ∀ (l : LabelMap) (d : DiffMap),
      dlookup (delGo specs d l) k = dlookup d k := by
  intro l
  induction l with
  | nil => exact fun d => rfl
  | cons nc rest ih =>
    intro d
    rw [delGo, ih]
    split
    · rename_i hnone
      apply dlookup_dinsert_ne
      intro he
      subst he
      rw [hnone] at hs
      cases hs
    · rfl

theorem delGo_lookup_mem {specs : LabelMap} {k c : String} :
    ∀ (l : LabelMap) (d : DiffMap), keysNodup l → dlookup l k = some c →
      dlookup specs k = none → dlookup (delGo specs d l) k = some (k, c) := by
  intro l
  induction l with
  | nil =>
    intro d _ hc
    cases hc
  | cons nc rest ih =>
    intro d hnd hc hs
    have hnd2 : nc.1 ∉ rest.map Prod.fst ∧ (rest.map Prod.fst).Nodup :=
      List.nodup_cons.1 (by simpa [keysNodup] using hnd)
    by_cases he : nc.1 = k
    · rw [dlookup_cons, if_pos he] at hc
      injection hc with hc
      subst hc
      subst he
      rw [delGo, if_pos hs]
      rw [delGo_lookup_notin _ _ hnd2.1]
      exact dlookup_dinsert_self _ _ _
    · rw [dlookup_cons, if_neg he] at hc
      rw [delGo]
      exact ih _ hnd2.2 hc hs

theorem delGo_keysNodup {specs : LabelMap} :
    ∀ (l : LabelMap) (d : DiffMap), keysNodup d → keysNodup (delGo specs d l) := by
  intro l
  induction l with
  | nil => exact fun d h => h
  | cons nc rest ih =>
    intro d hd
    rw [delGo]
    apply ih
    split
    · exact keysNodup_dinsert _ _ _ hd
    · exact hd

theorem countP_key_one {α : Type} {l : List (String × α)} {k : String}
    (hnd : keysNodup l) (hs : (dlookup l k).isSome) :
    l.countP (fun p => p.1 == k) = 1 := by
  induction l with
  | nil => cases hs
  | cons q rest ih =>
    have hnd2 : q.1 ∉ rest.map Prod.fst ∧ (rest.map Prod.fst).Nodup :=
      List.nodup_cons.1 (by simpa [keysNodup] using hnd)
    rw [List.countP_cons]
    by_cases he : q.1 = k
    · have hz : rest.countP (fun p => p.1 == k) = 0 := by
        apply List.countP_eq_zero.2
        intro p hp hpk
        apply hnd2.1
        rw [he, ← eq_of_beq hpk]
        exact List.mem_map_of_mem Prod.fst hp
      simp [hz, he]
    · rw [dlookup_cons, if_neg he] at hs
      have := ih hnd2.2 hs
      simp [this, he]

theorem countP_key_zero {α : Type} {l : List (String × α)} {k : String}
    (hn : dlookup l k = none) : l.countP (fun p => p.1 == k) = 0 := by
  apply List.countP_eq_zero.2
  intro p hp hpk
  have : k ∈ l.map Prod.fst := by
    rw [← eq_of_beq hpk]
    exact List.mem_map_of_mem Prod.fst hp
  exact (dlookup_eq_none_iff l k).1 hn this

theorem countP_val_one {α : Type} [BEq α] [LawfulBEq α]
    {l : List (String × α)} {k₀ : String} {v : α} (hnd : keysNodup l)
    (hmem : (k₀, v) ∈ l) (hka : ∀ p ∈ l, p.2 = v → p.1 = k₀) :
    l.countP (fun p => p.2 == v) = 1 := by
  induction l with
  | nil => cases hmem
  | cons q rest ih =>
    have hnd2 : q.1 ∉ rest.map Prod.fst ∧ (rest.map Prod.fst).Nodup :=
      List.nodup_cons.1 (by simpa [keysNodup] using hnd)
    rw [List.countP_cons]
    rcases List.mem_cons.1 hmem with hq | hq
    · have hz : rest.countP (fun p => p.2 == v) = 0 := by
        apply List.countP_eq_zero.2
        intro p hp hpv
        apply hnd2.1
        have hpk : p.1 = k₀ := hka p (List.mem_cons_of_mem _ hp) (eq_of_beq hpv)
        rw [← hq]
        show k₀ ∈ _
        rw [← hpk]
        exact List.mem_map_of_mem Prod.fst hp
      simp [hz, ← hq]
    · have hqv : q.2 ≠ v := by
        intro he
        have h1 : q.1 = k₀ := hka q (List.mem_cons_self _ _) he
        apply hnd2.1
        rw [h1]
        exact List.mem_map_of_mem Prod.fst hq
      have := ih hnd2.2 hq (fun p hp => hka p (List.mem_cons_of_mem _ hp))
      simp [this, hqv]

theorem create_key_labels_none {labels specs : LabelMap} {k : String}
    (hs : (dlookup (update_mode labels specs).1 k).isSome) :
    dlookup labels k = none := by
  cases hv : dlookup (update_mode labels specs).1 k with
  | none => rw [hv] at hs; cases hs
  | some v =>
    rcases umGo_create_sound ([], []) hv with h | ⟨nc, _, _, hw⟩
    · cases h
    · exact writesC_key_none hw

theorem update_key_labels_isSome {labels specs : LabelMap} {k : String}
    (hs : (dlookup (update_mode labels specs).2.1 k).isSome) :
    (dlookup labels k).isSome := by
  cases hv : dlookup (update_mode labels specs).2.1 k with
  | none => rw [hv] at hs; cases hs
  | some v =>
    rcases umGo_update_sound ([], []) hv with h | ⟨nc, _, _, hw⟩
    · cases h
    · exact writesU_key_isSome hw

/-- The original reading of claim C2 about one diff plan: the three maps are
pairwise key-disjoint and `toCreate`/`toUpdate` cover every specification
entry exactly once. -/
def planDisjoint (plan : DiffMap × DiffMap × DiffMap) : Prop :=
  (∀ p ∈ plan.1, dlookup plan.2.1 p.1 = none ∧ dlookup plan.2.2 p.1 = none) ∧
  (∀ p ∈ plan.2.1, dlookup plan.2.2 p.1 = none)

/-- Every specification entry appears exactly once as a value of
`toCreate ++ toUpdate`. -/
def coversOnce (plan : DiffMap × DiffMap × DiffMap) (specs : LabelMap) : Prop :=
  ∀ nc ∈ specs, (plan.1 ++ plan.2.1).countP (fun p => p.2 == nc) = 1

instance {α : Type} (l : List (String × α)) : Decidable (keysNodup l) :=
  inferInstanceAs (Decidable (l.map Prod.fst).Nodup)

instance (specs : LabelMap) : Decidable (specLowerNodup specs) := by
  unfold specLowerNodup
  infer_instance

instance (plan : DiffMap × DiffMap × DiffMap) : Decidable (planDisjoint plan) := by
  unfold planDisjoint
  infer_instance

instance (plan : DiffMap × DiffMap × DiffMap) (specs : LabelMap) :
    Decidable (coversOnce plan specs) := by
  unfold coversOnce
  infer_instance

/-- Claim C2 as stated is false on the code: with current labels
`{Bug: aaaaaa, same: bbbbbb}` and specification `{bug: aaaaaa, same: bbbbbb}`
the `replace` plan keys `Bug` both in `toUpdate` (the case-only rename) and
in `toDelete` (exact absence from the spec), and the unchanged entry
`(same, bbbbbb)` is covered by neither `toCreate` nor `toUpdate`. -/
theorem spec_c2_counterexample :
    ¬ (planDisjoint
        (replace_mode [("Bug", "aaaaaa"), ("same", "bbbbbb")]
          [("bug", "aaaaaa"), ("same", "bbbbbb")]) ∧
      coversOnce
        (replace_mode [("Bug", "aaaaaa"), ("same", "bbbbbb")]
          [("bug", "aaaaaa"), ("same", "bbbbbb")])
        [("bug", "aaaaaa"), ("same", "bbbbbb")]) := by
  decide

/-- Claim C2 (amended): provided no two specification names differ only in
case, a `toCreate` key never occurs in `toUpdate` or `toDelete`, the
`update` policy has an empty `toDelete`, and `toCreate`/`toUpdate` together
cover each specification entry exactly once unless the entry is already
exactly present (same name and color) in the current set, in which case it
is covered zero times.  (The original claim fails on the code: under the
`replace` policy a case-only rename keys the same original name in both
`toUpdate` and `toDelete`, and an exactly-matching entry is covered zero
times, see the counterexample.) -/
theorem spec_c2_amended (labels specs : LabelMap) (hS : specLowerNodup specs) :
    (∀ k, (dlookup (update_mode labels specs).1 k).isSome →
      dlookup (update_mode labels specs).2.1 k = none ∧
      dlookup (replace_mode labels specs).2.2 k = none) ∧
    (update_mode labels specs).2.2 = [] ∧
    (∀ nc ∈ specs,
      ((update_mode labels specs).1 ++ (update_mode labels specs).2.1).countP
          (fun p => p.2 == nc) =
        if dlookup labels nc.1 = some nc.2 then 0 else 1) := by
  refine ⟨?_, rfl, ?_⟩
  · intro k hk
    have hnone := create_key_labels_none hk
    constructor
    · cases hu : dlookup (update_mode labels specs).2.1 k with
      | none => rfl
      | some v =>
        have := update_key_labels_isSome (k := k) (by rw [hu]; rfl)
        rw [hnone] at this
        cases this
    · rw [replace_mode_delete]
      rw [delGo_lookup_notin _ _ ((dlookup_eq_none_iff _ _).1 hnone)]
      rfl
  · intro nc hmem
    have hndc := (update_mode_keysNodup labels specs).1
    have hndu := (update_mode_keysNodup labels specs).2
    rw [List.countP_append]
    cases hf : fate labels nc.1 nc.2 with
    | noop =>
      rw [if_pos (fate_noop_iff.1 hf)]
      have hc : (update_mode labels specs).1.countP (fun p => p.2 == nc) = 0 := by
        apply List.countP_eq_zero.2
        intro p hp hpv
        rcases update_mode_create_mem hp with ⟨nd, _, hv, hw⟩
        rw [eq_of_beq hpv] at hv
        rw [← hv] at hw
        rw [hw.2] at hf
        cases hf
      have hu : (update_mode labels specs).2.1.countP (fun p => p.2 == nc) = 0 := by
        apply List.countP_eq_zero.2
        intro p hp hpv
        rcases update_mode_update_mem hp with ⟨nd, _, hv, hw⟩
        rw [eq_of_beq hpv] at hv
        rw [← hv] at hw
        rcases hw with hw | hw
        · rw [hw] at hf; cases hf
        · rw [hw.2] at hf; cases hf
      rw [hc, hu]
    | mkNew =>
      have hne : ¬ dlookup labels nc.1 = some nc.2 := by
        intro he
        rw [fate_noop_iff.2 he] at hf
        cases hf
      rw [if_neg hne]
      have hcl := update_mode_create_lookup hS hmem
        (k := nc.1) ⟨rfl, hf⟩
      have hc : (update_mode labels specs).1.countP (fun p => p.2 == nc) = 1 := by
        apply countP_val_one hndc (mem_of_dlookup_eq_some hcl)
        intro p hp hpv
        rcases update_mode_create_mem hp with ⟨nd, _, hv, hw⟩
        rw [hpv] at hv
        rw [← hv] at hw
        exact hw.1.symm
      have hu : (update_mode labels specs).2.1.countP (fun p => p.2 == nc) = 0 := by
        apply List.countP_eq_zero.2
        intro p hp hpv
        rcases update_mode_update_mem hp with ⟨nd, _, hv, hw⟩
        rw [eq_of_beq hpv] at hv
        rw [← hv] at hw
        rcases hw with hw | hw
        · rw [hw] at hf; cases hf
        · rw [hw.2] at hf; cases hf
      rw [hc, hu]
    | rename old =>
      have hne : ¬ dlookup labels nc.1 = some nc.2 := by
        intro he
        rw [fate_noop_iff.2 he] at hf
        cases hf
      rw [if_neg hne]
      have hul := update_mode_update_lookup hS hmem (k := old) (Or.inl hf)
      have hu : (update_mode labels specs).2.1.countP (fun p => p.2 == nc) = 1 := by
        apply countP_val_one hndu (mem_of_dlookup_eq_some hul)
        intro p hp hpv
        rcases update_mode_update_mem hp with ⟨nd, _, hv, hw⟩
        rw [hpv] at hv
        rw [← hv] at hw
        rcases hw with hw | hw
        · rw [hw] at hf
          injection hf
        · rw [hw.2] at hf; cases hf
      have hc : (update_mode labels specs).1.countP (fun p => p.2 == nc) = 0 := by
        apply List.countP_eq_zero.2
        intro p hp hpv
        rcases update_mode_create_mem hp with ⟨nd, _, hv, hw⟩
        rw [eq_of_beq hpv] at hv
        rw [← hv] at hw
        rw [hw.2] at hf
        cases hf
      rw [hc, hu]
    | recolor =>
      have hne : ¬ dlookup labels nc.1 = some nc.2 := by
        intro he
        rw [fate_noop_iff.2 he] at hf
        cases hf
      rw [if_neg hne]
      have hul := update_mode_update_lookup hS hmem (k := nc.1)
        (Or.inr ⟨rfl, hf⟩)
      have hu : (update_mode labels specs).2.1.countP (fun p => p.2 == nc) = 1 := by
        apply countP_val_one hndu (mem_of_dlookup_eq_some hul)
        intro p hp hpv
        rcases update_mode_update_mem hp with ⟨nd, _, hv, hw⟩
        rw [hpv] at hv
        rw [← hv] at hw
        rcases hw with hw | hw
        · rw [hw] at hf; cases hf
        · exact hw.1.symm
      have hc : (update_mode labels specs).1.countP (fun p => p.2 == nc) = 0 := by
        apply List.countP_eq_zero.2
        intro p hp hpv
        rcases update_mode_create_mem hp with ⟨nd, _, hv, hw⟩
        rw [eq_of_beq hpv] at hv
        rw [← hv] at hw
        rw [hw.2] at hf
        cases hf
      rw [hc, hu]

/-- Witness for the amended claim C2 at the end-to-end scenario of the
specification. -/
theorem spec_c2_amended_witness :
    specLowerNodup [("bug", "ee0701"), ("feature", "00ff00")] ∧
    ((∀ k, (dlookup (update_mode [("bug", "ee0701")]
        [("bug", "ee0701"), ("feature", "00ff00")]).1 k).isSome →
      dlookup (update_mode [("bug", "ee0701")]
        [("bug", "ee0701"), ("feature", "00ff00")]).2.1 k = none ∧
      dlookup (replace_mode [("bug", "ee0701")]
        [("bug", "ee0701"), ("feature", "00ff00")]).2.2 k = none) ∧
    (update_mode [("bug", "ee0701")]
        [("bug", "ee0701"), ("feature", "00ff00")]).2.2 = [] ∧
    (∀ nc ∈ [("bug", "ee0701"), ("feature", "00ff00")],
      ((update_mode [("bug", "ee0701")]
          [("bug", "ee0701"), ("feature", "00ff00")]).1 ++
        (update_mode [("bug", "ee0701")]
          [("bug", "ee0701"), ("feature", "00ff00")]).2.1).countP
          (fun p => p.2 == nc) =
        if dlookup [("bug", "ee0701")] nc.1 = some nc.2 then 0 else 1)) :=
  ⟨by decide, spec_c2_amended _ _ (by decide)⟩

/-- Claim C3: the `update` policy always yields an empty `toDelete`; the
`replace` policy yields exactly one `toDelete` entry, keyed by the current
name with the current (name, color) as value, for each current label whose
exact name is absent from the specification, and none for names present in
the specification or absent from the current set. -/
theorem spec_c3 (labels specs : LabelMap) (hL : keysNodup labels) :
    (update_mode labels specs).2.2 = [] ∧
    (∀ n c, dlookup labels n = some c → dlookup specs n = none →
      dlookup (replace_mode labels specs).2.2 n = some (n, c) ∧
      (replace_mode labels specs).2.2.countP (fun p => p.1 == n) = 1) ∧
    (∀ n, (dlookup specs n).isSome →
      dlookup (replace_mode labels specs).2.2 n = none) ∧
    (∀ n, dlookup labels n = none →
      dlookup (replace_mode labels specs).2.2 n = none) := by
  refine ⟨rfl, ?_, ?_, ?_⟩
  · intro n c hc hs
    have h1 : dlookup (replace_mode labels specs).2.2 n = some (n, c) := by
      rw [replace_mode_delete]
      exact delGo_lookup_mem _ _ hL hc hs
    refine ⟨h1, ?_⟩
    apply countP_key_one
    · rw [replace_mode_delete]
      exact delGo_keysNodup _ _ keysNodup_nil
    · rw [h1]
      rfl
  · intro n hs
    rw [replace_mode_delete, delGo_lookup_spec_some hs]
    rfl
  · intro n hn
    rw [replace_mode_delete,
      delGo_lookup_notin _ _ ((dlookup_eq_none_iff _ _).1 hn)]
    rfl

/-- Witness for claim C3: a current set with one kept and one stale label. -/
theorem spec_c3_witness :
    keysNodup [("bug", "ee0701"), ("old", "123456")] ∧
    ((update_mode [("bug", "ee0701"), ("old", "123456")]
        [("bug", "ee0701")]).2.2 = [] ∧
    (∀ n c, dlookup [("bug", "ee0701"), ("old", "123456")] n = some c →
      dlookup [("bug", "ee0701")] n = none →
      dlookup (replace_mode [("bug", "ee0701"), ("old", "123456")]
        [("bug", "ee0701")]).2.2 n = some (n, c) ∧
      (replace_mode [("bug", "ee0701"), ("old", "123456")]
        [("bug", "ee0701")]).2.2.countP (fun p => p.1 == n) = 1) ∧
    (∀ n, (dlookup [("bug", "ee0701")] n).isSome →
      dlookup (replace_mode [("bug", "ee0701"), ("old", "123456")]
        [("bug", "ee0701")]).2.2 n = none) ∧
    (∀ n, dlookup [("bug", "ee0701"), ("old", "123456")] n = none →
      dlookup (replace_mode [("bug", "ee0701"), ("old", "123456")]
        [("bug", "ee0701")]).2.2 n = none)) :=
  ⟨by decide, spec_c3 _ _ (by decide)⟩

theorem fate_mkNew_elim {labels : LabelMap} {n c : String}
    (hf : fate labels n c = .mkNew) :
    dlookup (make_labels_dict labels) (pyLower n) = none := by
  unfold fate at hf
  cases hx : dlookup (make_labels_dict labels) (pyLower n) with
  | none => rfl
  | some ov =>
    simp only [hx] at hf
    split at hf
    · cases hf
    · split at hf <;> cases hf

theorem spec_entry_unique {specs : LabelMap} (hnd : keysNodup specs)
    {name color : String} {nd : String × String}
    (h1 : (name, color) ∈ specs) (h2 : nd ∈ specs) (he : nd.1 = name) :
    nd = (name, color) := by
  have ha := dlookup_eq_some_of_mem_nodup hnd h1
  have hb : dlookup specs nd.1 = some nd.2 := by
    have : (nd.1, nd.2) ∈ specs := by simpa using h2
    exact dlookup_eq_some_of_mem_nodup hnd this
  rw [he, ha] at hb
  injection hb with hb
  cases nd
  simp_all

/-- Claim C4 as stated is false on the code: for the case-only rename of
current `{Bug: aaaaaa}` into spec `{bug: aaaaaa}`, the `replace` policy also
produces a `toDelete` entry keyed `Bug`, so the number of `toDelete` entries
for that label is not zero even though the expected `toUpdate` entry is
present. -/
theorem spec_c4_counterexample :
    ¬ (dlookup (replace_mode [("Bug", "aaaaaa")] [("bug", "aaaaaa")]).2.1 "Bug"
        = some ("bug", "aaaaaa") ∧
      (replace_mode [("Bug", "aaaaaa")] [("bug", "aaaaaa")]).1.countP
        (fun p => p.2 == ("bug", "aaaaaa")) = 0 ∧
      (replace_mode [("Bug", "aaaaaa")] [("bug", "aaaaaa")]).2.2.countP
        (fun p => p.1 == "Bug") = 0) := by
  decide

/-- Claim C4 (amended): a specification entry whose name differs only in
case from an existing current label produces exactly one `toUpdate` entry,
keyed by the original (pre-rename) current name with the new (name, color)
as value, and zero `toCreate` entries; `toDelete` is empty under the
`update` policy, but under the `replace` policy the original name
additionally gets a `toDelete` entry (it is exactly absent from the
specification), which is what the counterexample exhibits. -/
theorem spec_c4_amended (labels specs : LabelMap) (hL : keysNodup labels)
    (hS : specLowerNodup specs) (name color old c0 : String)
    (hmem : (name, color) ∈ specs)
    (hold : dlookup labels old = some c0)
    (hcase : pyLower old = pyLower name)
    (hne : old ≠ name)
    (hnot : dlookup labels name = none)
    (huniq : ∀ p ∈ labels, pyLower p.1 = pyLower name → p.1 = old) :
    dlookup (update_mode labels specs).2.1 old = some (name, color) ∧
    (update_mode labels specs).2.1.countP (fun p => p.1 == old) = 1 ∧
    dlookup (update_mode labels specs).1 name = none ∧
    (update_mode labels specs).1.countP (fun p => p.2 == (name, color)) = 0 ∧
    (update_mode labels specs).2.2 = [] ∧
    dlookup (replace_mode labels specs).2.2 old = some (old, c0) := by
  have hmold : (old, c0) ∈ labels := mem_of_dlookup_eq_some hold
  have hf : fate labels name color = .rename old := by
    unfold fate
    cases hx : dlookup (make_labels_dict labels) (pyLower name) with
    | none =>
      have := make_labels_dict_complete hmold
      rw [show pyLower (old, c0).1 = pyLower name from hcase] at this
      rw [hx] at this
      cases this
    | some ov =>
      have hov := make_labels_dict_sound hx
      have hoveq : ov.1 = old := huniq ov hov.1 hov.2
      show (if dlookup labels name = none then SpecFate.rename ov.1
        else if dlookup labels name = some color then SpecFate.noop
        else SpecFate.recolor) = SpecFate.rename old
      rw [if_pos hnot, hoveq]
  have hwu : writesU labels old (name, color) := Or.inl hf
  have hul : dlookup (update_mode labels specs).2.1 old = some (name, color) :=
    update_mode_update_lookup hS hmem hwu
  have hsold : dlookup specs old = none := by
    cases hso : dlookup specs old with
    | none => rfl
    | some w =>
      have hm2 : (old, w) ∈ specs := mem_of_dlookup_eq_some hso
      have := hS.inj hm2 hmem (by simpa using hcase)
      injection this with h1 h2
      exact absurd h1 hne
  refine ⟨hul, ?_, ?_, ?_, rfl, ?_⟩
  · exact countP_key_one (update_mode_keysNodup labels specs).2
      (by rw [hul]; rfl)
  · cases hc : dlookup (update_mode labels specs).1 name with
    | none => rfl
    | some v =>
      rcases umGo_create_sound ([], []) hc with h | ⟨nc, hncs, hv, hw⟩
      · cases h
      · have : nc = (name, color) :=
          spec_entry_unique hS.keysNodup hmem hncs hw.1
        rw [this] at hw
        rw [hw.2] at hf
        cases hf
  · apply List.countP_eq_zero.2
    intro p hp hpv
    rcases update_mode_create_mem hp with ⟨nd, _, hv, hw⟩
    rw [eq_of_beq hpv] at hv
    rw [← hv] at hw
    rw [hw.2] at hf
    cases hf
  · rw [replace_mode_delete]
    exact delGo_lookup_mem _ _ hL hold hsold

/-- Witness for the amended claim C4: renaming `Bug` to `bug`. -/
theorem spec_c4_amended_witness :
    keysNodup [("Bug", "aaaaaa")] ∧
    specLowerNodup [("bug", "aaaaaa")] ∧
    ("bug", "aaaaaa") ∈ [("bug", "aaaaaa")] ∧
    dlookup [("Bug", "aaaaaa")] "Bug" = some "aaaaaa" ∧
    pyLower "Bug" = pyLower "bug" ∧
    "Bug" ≠ "bug" ∧
    dlookup [("Bug", "aaaaaa")] "bug" = none ∧
    (∀ p ∈ [("Bug", "aaaaaa")], pyLower p.1 = pyLower "bug" → p.1 = "Bug") ∧
    (dlookup (update_mode [("Bug", "aaaaaa")] [("bug", "aaaaaa")]).2.1 "Bug" =
        some ("bug", "aaaaaa") ∧
      (update_mode [("Bug", "aaaaaa")] [("bug", "aaaaaa")]).2.1.countP
        (fun p => p.1 == "Bug") = 1 ∧
      dlookup (update_mode [("Bug", "aaaaaa")] [("bug", "aaaaaa")]).1 "bug" =
        none ∧
      (update_mode [("Bug", "aaaaaa")] [("bug", "aaaaaa")]).1.countP
        (fun p => p.2 == ("bug", "aaaaaa")) = 0 ∧
      (update_mode [("Bug", "aaaaaa")] [("bug", "aaaaaa")]).2.2 = [] ∧
      dlookup (replace_mode [("Bug", "aaaaaa")] [("bug", "aaaaaa")]).2.2 "Bug" =
        some ("Bug", "aaaaaa")) :=
  ⟨by decide, by decide, by decide, by decide, by decide, by decide, by decide,
    by decide,
    spec_c4_amended _ _ (by decide) (by decide) _ _ _ _ (by decide) (by decide)
      (by decide) (by decide) (by decide) (by decide)⟩

/-! ## Applying an update-policy plan (claim C5) -/

/-- Modelled from claim C5's wording: applying the update-policy diff plan
to the current set — each `toUpdate` entry replaces the binding of the keyed
current name by the new (name, color), and each `toCreate` entry is added. -/
def applyPlan (labels : LabelMap) (plan : DiffMap × DiffMap × DiffMap) :
    LabelMap :=
  (plan.2.1.foldl
      (fun ls u => ls.map (fun kv => if kv.1 = u.1 then u.2 else kv)) labels)
    ++ plan.1.map (fun p => p.2)

theorem foldl_replace_eq_map (upds : DiffMap) :
    ∀ labels : LabelMap,
      upds.Pairwise (fun u v => u.2.1 ≠ v.1) →
      upds.foldl
          (fun ls u => ls.map (fun kv => if kv.1 = u.1 then u.2 else kv))
          labels =
        labels.map (fun kv => (dlookup upds kv.1).getD kv) := by
  induction upds with
  | nil =>
    intro labels _
    rw [List.foldl_nil]
    have h2 : labels.map (fun kv => (dlookup [] kv.1).getD kv) =
        labels.map (fun kv => kv) := List.map_congr_left (fun kv _ => rfl)
    rw [h2, List.map_id']
  | cons u us ih =>
    intro labels hp
    rcases List.pairwise_cons.1 hp with ⟨hhead, htail⟩
    rw [List.foldl_cons, ih _ htail, List.map_map]
    apply List.map_congr_left
    intro kv _
    by_cases hk : kv.1 = u.1
    · have hnone : dlookup us u.2.1 = none := by
        rw [dlookup_eq_none_iff]
        intro hm
        rcases List.mem_map.1 hm with ⟨v, hv, hveq⟩
        exact hhead v hv hveq.symm
      simp only [Function.comp_apply, if_pos hk, dlookup_cons,
        if_pos hk.symm, Option.getD_some]
      rw [hnone]
      rfl
    · have h1 : u.1 ≠ kv.1 := fun he => hk he.symm
      simp only [Function.comp_apply, if_neg hk, dlookup_cons, if_neg h1]

theorem update_mode_pairwise (labels specs : LabelMap) :
    (update_mode labels specs).2.1.Pairwise (fun u v => u.2.1 ≠ v.1) := by
  have hnd := (update_mode_keysNodup labels specs).2
  unfold keysNodup at hnd
  have hp : (update_mode labels specs).2.1.Pairwise (fun u v => u.1 ≠ v.1) :=
    List.pairwise_map.1 hnd
  apply List.Pairwise.imp_of_mem ?_ hp
  intro a b ha hb hne
  rcases update_mode_update_mem ha with ⟨nd, hnds, hv, hw⟩
  have hbs : (dlookup labels b.1).isSome :=
    update_key_labels_isSome (dlookup_isSome_of_mem hb)
  rcases hw with hw | hw
  · intro he
    have h1 := (fate_rename_lower hw).2
    rw [← hv] at h1
    rw [he] at h1
    rw [h1] at hbs
    cases hbs
  · intro he
    rw [hv] at he
    rw [hw.1] at he
    exact hne he

theorem dlookup_map_eq_some {α : Type} {g : String × α → String × α}
    {k : String} {c : α} :
    ∀ {l : List (String × α)},
      (∀ kv ∈ l, (g kv).1 = k → g kv = (k, c)) →
      (∃ kv ∈ l, (g kv).1 = k) →
      dlookup (l.map g) k = some c := by
  intro l
  induction l with
  | nil =>
    intro _ hex
    rcases hex with ⟨kv, h, _⟩
    cases h
  | cons q rest ih =>
    intro hall hex
    by_cases hq : (g q).1 = k
    · have hgq := hall q (List.mem_cons_self _ _) hq
      rw [List.map_cons, dlookup_cons, if_pos hq, hgq]
    · rw [List.map_cons, dlookup_cons, if_neg hq]
      apply ih (fun kv h hk => hall kv (List.mem_cons_of_mem _ h) hk)
      rcases hex with ⟨kv, hkv, hk⟩
      rcases List.mem_cons.1 hkv with he | he
      · exact absurd (he ▸ hk) hq
      · exact ⟨kv, he, hk⟩

theorem dlookup_map_eq_none {α : Type} {g : String × α → String × α}
    {k : String} {l : List (String × α)}
    (hall : ∀ kv ∈ l, (g kv).1 ≠ k) : dlookup (l.map g) k = none := by
  rw [dlookup_eq_none_iff]
  intro hm
  rw [List.map_map] at hm
  rcases List.mem_map.1 hm with ⟨kv, hkv, hkeq⟩
  exact hall kv hkv hkeq

theorem umGo_all_noop {labels : LabelMap} :
    ∀ (l : LabelMap) (cu : DiffMap × DiffMap),
      (∀ nc ∈ l, fate labels nc.1 nc.2 = .noop) → umGo labels cu l = cu := by
  intro l
  induction l with
  | nil => exact fun cu _ => rfl
  | cons nc rest ih =>
    intro cu h
    rw [umGo, umStep_eq_fate, h nc (List.mem_cons_self _ _)]
    exact ih _ (fun x hx => h x (List.mem_cons_of_mem _ hx))

theorem update_mode_eq_nil_of_noop (labels specs : LabelMap)
    (h : ∀ nc ∈ specs, fate labels nc.1 nc.2 = .noop) :
    update_mode labels specs = ([], [], []) := by
  unfold update_mode
  rw [umGo_all_noop _ _ h]

theorem fate_recolor_isSome {labels : LabelMap} {n c : String}
    (hf : fate labels n c = .recolor) : (dlookup labels n).isSome := by
  unfold fate at hf
  cases hx : dlookup (make_labels_dict labels) (pyLower n) with
  | none => simp only [hx] at hf; cases hf
  | some ov =>
    simp only [hx] at hf
    split at hf
    · cases hf
    · rename_i h1
      cases hll : dlookup labels n
      · exact absurd hll h1
      · rfl

theorem fate_rename_mem {labels : LabelMap} {n c old : String}
    (hf : fate labels n c = .rename old) : ∃ c0, (old, c0) ∈ labels := by
  unfold fate at hf
  cases hx : dlookup (make_labels_dict labels) (pyLower n) with
  | none => simp only [hx] at hf; cases hf
  | some ov =>
    simp only [hx] at hf
    have hov := make_labels_dict_sound hx
    split at hf
    · injection hf with hf
      refine ⟨ov.2, ?_⟩
      rw [← hf]
      simpa using hov.1
    · split at hf <;> cases hf

theorem apply_update_lookup (labels specs : LabelMap) (hL : keysNodup labels)
    (hS : specLowerNodup specs) {nc : String × String} (hmem : nc ∈ specs) :
    dlookup (applyPlan labels (update_mode labels specs)) nc.1 = some nc.2 := by
  obtain ⟨name, color⟩ := nc
  have hpair := update_mode_pairwise labels specs
  have happ : applyPlan labels (update_mode labels specs) =
      labels.map
          (fun kv => (dlookup (update_mode labels specs).2.1 kv.1).getD kv) ++
        (update_mode labels specs).1.map (fun p => p.2) := by
    unfold applyPlan
    rw [foldl_replace_eq_map _ _ hpair]
  have hWname : ∀ (k : String) (w : String × String),
      dlookup (update_mode labels specs).2.1 k = some w → w.1 = name →
      w = (name, color) ∧ writesU labels k (name, color) := by
    intro k w hw hwn
    rcases umGo_update_sound ([], []) hw with h | ⟨nd, hnds, hv, hwrites⟩
    · cases h
    · rw [hv] at hnds hwrites
      have h1 : w = (name, color) :=
        spec_entry_unique hS.keysNodup hmem hnds hwn
      exact ⟨h1, h1 ▸ hwrites⟩
  have hnoUname : fate labels name color = .noop →
      dlookup (update_mode labels specs).2.1 name = none := by
    intro hf
    cases hu : dlookup (update_mode labels specs).2.1 name with
    | none => rfl
    | some w =>
      rcases umGo_update_sound ([], []) hu with h | ⟨nd, hnds, hv, hwrites⟩
      · cases h
      · have hlow : pyLower nd.1 = pyLower name := writesU_lower hwrites
        have h1 : nd = (name, color) := hS.inj hnds hmem hlow
        rw [h1] at hwrites
        rcases hwrites with hw | hw
        · rw [hw] at hf; cases hf
        · rw [hw.2] at hf; cases hf
  rw [happ, dlookup_append]
  cases hf : fate labels name color with
  | noop =>
    have hlook := fate_noop_iff.1 hf
    have hfirst : dlookup (labels.map
        (fun kv => (dlookup (update_mode labels specs).2.1 kv.1).getD kv))
        name = some color := by
      apply dlookup_map_eq_some
      · intro kv hkv hgk
        cases hu : dlookup (update_mode labels specs).2.1 kv.1 with
        | some w =>
          rw [hu] at hgk
          have hw1 : w.1 = name := by simpa using hgk
          have h1 := (hWname kv.1 w hu hw1).1
          simpa using h1
        | none =>
          rw [hu] at hgk
          have hkn : kv.1 = name := by simpa using hgk
          have hlk : dlookup labels kv.1 = some kv.2 :=
            dlookup_eq_some_of_mem_nodup hL (by simpa using hkv)
          rw [hkn, hlook] at hlk
          injection hlk with hlk
          show kv = (name, color)
          cases kv
          simp_all
      · refine ⟨(name, color), mem_of_dlookup_eq_some hlook, ?_⟩
        show ((dlookup (update_mode labels specs).2.1 name).getD
          (name, color)).1 = name
        rw [hnoUname hf]
        rfl
    rw [hfirst]
    rfl
  | recolor =>
    have hul : dlookup (update_mode labels specs).2.1 name =
        some (name, color) :=
      update_mode_update_lookup hS hmem (Or.inr ⟨rfl, hf⟩)
    have hlis := fate_recolor_isSome hf
    cases hc0 : dlookup labels name with
    | none => rw [hc0] at hlis; cases hlis
    | some c0 =>
    have hfirst : dlookup (labels.map
        (fun kv => (dlookup (update_mode labels specs).2.1 kv.1).getD kv))
        name = some color := by
      apply dlookup_map_eq_some
      · intro kv hkv hgk
        cases hu : dlookup (update_mode labels specs).2.1 kv.1 with
        | some w =>
          rw [hu] at hgk
          have hw1 : w.1 = name := by simpa using hgk
          have h1 := (hWname kv.1 w hu hw1).1
          simpa using h1
        | none =>
          rw [hu] at hgk
          have hkn : kv.1 = name := by simpa using hgk
          rw [hkn, hul] at hu
          cases hu
      · refine ⟨(name, c0), mem_of_dlookup_eq_some hc0, ?_⟩
        show ((dlookup (update_mode labels specs).2.1 name).getD
          (name, c0)).1 = name
        rw [hul]
        rfl
    rw [hfirst]
    rfl
  | rename old =>
    have hul : dlookup (update_mode labels specs).2.1 old =
        some (name, color) :=
      update_mode_update_lookup hS hmem (Or.inl hf)
    have hnot : dlookup labels name = none := (fate_rename_lower hf).2
    rcases fate_rename_mem hf with ⟨c0, hmold⟩
    have hfirst : dlookup (labels.map
        (fun kv => (dlookup (update_mode labels specs).2.1 kv.1).getD kv))
        name = some color := by
      apply dlookup_map_eq_some
      · intro kv hkv hgk
        cases hu : dlookup (update_mode labels specs).2.1 kv.1 with
        | some w =>
          rw [hu] at hgk
          have hw1 : w.1 = name := by simpa using hgk
          have h1 := (hWname kv.1 w hu hw1).1
          simpa using h1
        | none =>
          rw [hu] at hgk
          have hkn : kv.1 = name := by simpa using hgk
          have hks := dlookup_isSome_of_mem hkv
          rw [hkn, hnot] at hks
          cases hks
      · refine ⟨(old, c0), hmold, ?_⟩
        show ((dlookup (update_mode labels specs).2.1 old).getD
          (old, c0)).1 = name
        rw [hul]
        rfl
    rw [hfirst]
    rfl
  | mkNew =>
    have hmld := fate_mkNew_elim hf
    have hfirst : dlookup (labels.map
        (fun kv => (dlookup (update_mode labels specs).2.1 kv.1).getD kv))
        name = none := by
      apply dlookup_map_eq_none
      intro kv hkv
      cases hu : dlookup (update_mode labels specs).2.1 kv.1 with
      | some w =>
        intro hgk
        have hw1 : w.1 = name := by simpa using hgk
        have h1 := (hWname kv.1 w hu hw1).2
        rcases h1 with hw | hw
        · rw [hw] at hf; cases hf
        · rw [hw.2] at hf; cases hf
      | none =>
        intro hgk
        have hkn : kv.1 = name := by simpa using hgk
        have hmc := make_labels_dict_complete hkv
        rw [show (pyLower kv.1) = pyLower name from by rw [hkn]] at hmc
        rw [hmld] at hmc
        cases hmc
    rw [hfirst]
    have hCl : dlookup (update_mode labels specs).1 name = some (name, color) :=
      update_mode_create_lookup hS hmem ⟨rfl, hf⟩
    have hndB : keysNodup ((update_mode labels specs).1.map (fun p => p.2)) := by
      unfold keysNodup
      rw [List.map_map]
      have h2 : (update_mode labels specs).1.map (Prod.fst ∘ fun p => p.2) =
          (update_mode labels specs).1.map Prod.fst := by
        apply List.map_congr_left
        intro p hp
        rcases update_mode_create_mem hp with ⟨nd, _, hv, hw⟩
        show p.2.1 = p.1
        rw [hv, hw.1]
      rw [h2]
      exact (update_mode_keysNodup labels specs).1
    have hmemB : ((name, color) : String × String) ∈
        (update_mode labels specs).1.map (fun p => p.2) :=
      List.mem_map.2 ⟨(name, (name, color)), mem_of_dlookup_eq_some hCl, rfl⟩
    have hBl := dlookup_eq_some_of_mem_nodup hndB hmemB
    rw [hBl]
    rfl

/-- Claim C5 as stated is false on the code: with current labels
`{Bug: aaaaaa}` and a specification containing two names that differ only in
case, `{Bug: aaaaaa, bug: bbbbbb}`, applying the update-policy plan and
diffing again does not yield an empty plan (the second diff wants to rename
`bug` back to `Bug`). -/
theorem spec_c5_counterexample :
    update_mode
        (applyPlan [("Bug", "aaaaaa")]
          (update_mode [("Bug", "aaaaaa")]
            [("Bug", "aaaaaa"), ("bug", "bbbbbb")]))
        [("Bug", "aaaaaa"), ("bug", "bbbbbb")] ≠ ([], [], []) := by
  decide

/-- Claim C5 (amended): provided the current set is a well-formed dict
(distinct names) and no two names of the desired specification differ only
in case, applying the update-policy diff plan to the current set and
diffing the result against the same specification under the update policy
yields an empty plan. -/
theorem spec_c5_amended (labels specs : LabelMap) (hL : keysNodup labels)
    (hS : specLowerNodup specs) :
    update_mode (applyPlan labels (update_mode labels specs)) specs =
      ([], [], []) := by
  apply update_mode_eq_nil_of_noop
  intro nc hmem
  exact fate_noop_iff.2 (apply_update_lookup labels specs hL hS hmem)

/-- Witness for the amended claim C5 at the end-to-end scenario of the
specification. -/
theorem spec_c5_amended_witness :
    keysNodup [("bug", "ee0701")] ∧
    specLowerNodup [("bug", "ee0701"), ("feature", "00ff00")] ∧
    update_mode
        (applyPlan [("bug", "ee0701")]
          (update_mode [("bug", "ee0701")]
            [("bug", "ee0701"), ("feature", "00ff00")]))
        [("bug", "ee0701"), ("feature", "00ff00")] = ([], [], []) :=
  ⟨by decide, by decide, spec_c5_amended _ _ (by decide) (by decide)⟩

/-! ## The webhook relay (labelord/web.py) -/

/-- `LabelordChange`: a pending change record with creation timestamp. -/
structure LabelordChange where
  action : String
  name : String
  color : Option String
  old_name : Option String
  timestamp : Int
deriving DecidableEq

/-- `LabelordChange.__init__` called at time `now`: the color is dropped
for the `deleted` action; the optional constructor argument that would fill
`old_name` is never passed by `process_label_webhook`, so it is `None`. -/
def LabelordChange.make (action name color : String) (now : Int) :
    LabelordChange :=
  { action := action, name := name
    color := if action = "deleted" then none else some color
    old_name := none, timestamp := now }

/-- `LabelordChange.tuple`. -/
def LabelordChange.tuple (c : LabelordChange) :
    String × String × Option String × Option String :=
  (c.action, c.name, c.color, c.old_name)

/-- `LabelordChange.__eq__`: structural equality of the tuples, ignoring
the timestamp. -/
def LabelordChange.eqPy (c d : LabelordChange) : Bool :=
  c.tuple == d.tuple

/-- `LabelordChange.is_valid` at time `now`, with `CHANGE_TIMEOUT = 10`. -/
def LabelordChange.is_valid (c : LabelordChange) (now : Int) : Bool :=
  c.timestamp > now - 10

/-- The fields of a GitHub label webhook payload that the relay reads.
`changesNameFrom` is `data['changes']['name']['from']` when present. -/
structure WebhookData where
  action : String
  labelName : String
  labelColor : String
  repo : String
  changesNameFrom : Option String
deriving DecidableEq

/-- `LabelordWeb.ignores`: per-repository lists of expected echoes. -/
abbrev Ignores := List (String × List LabelordChange)

/-- `LabelordWeb.cleanup_ignores`: drop expired records for every
repository. -/
def cleanup_ignores (now : Int) (ig : Ignores) : Ignores :=
  ig.map (fun rc => (rc.1, rc.2.filter (fun c => c.is_valid now)))

/-- The change record `process_label_webhook` builds from the payload: for
an `edited` action carrying a rename, the code stores the previous name in
`name` (the new name goes into a fresh `new_name` attribute that `tuple`
never reads) and `old_name` stays `None`. -/
def buildChange (data : WebhookData) (now : Int) : LabelordChange :=
  let change :=
    LabelordChange.make data.action data.labelName data.labelColor now
  match data.changesNameFrom with
  | some fromName =>
    if data.action = "edited" then { change with name := fromName }
    else change
  | none => change

/-- A remote label-management call attempted during propagation. -/
inductive ApiCall
  | createLabel (repo name color : String)
  | deleteLabel (repo name : String)
  | updateLabel (repo name color old_name : String)
deriving DecidableEq

/-- The call `process_label_webhook_{create,delete,edit}` issues to peer
`r` for this payload (`none` for an unrecognized action). -/
def webhookCall (data : WebhookData) (r : String) : Option ApiCall :=
  if data.action = "created" then
    some (.createLabel r data.labelName data.labelColor)
  else if data.action = "deleted" then
    some (.deleteLabel r data.labelName)
  else if data.action = "edited" then
    some (.updateLabel r data.labelName data.labelColor
      (match data.changesNameFrom with
       | some fromName => fromName
       | none => data.labelName))
  else none

/-- `if r not in self.ignores: self.ignores[r] = []` followed by
`self.ignores[r].append(change)`. -/
def igAppend (ig : Ignores) (r : String) (c : LabelordChange) : Ignores :=
  dinsert ig r ((dlookup ig r).getD [] ++ [c])

/-- Python `list.remove` under `LabelordChange.__eq__`: drop the first
structurally matching record (the call site is guarded by `in`). -/
def removeFirst : List LabelordChange → LabelordChange → List LabelordChange
  | [], _ => []
  | x :: xs, c => if x.eqPy c then xs else x :: removeFirst xs c

/-- The `for r in self.repos` propagation loop of `process_label_webhook`:
skip the origin, register the expected echo, attempt the remote call.  A
failing call raises `GitHubError`, which the loop body catches and ignores;
`fails` tells which calls fail.  Returns the new guard state and the
attempted calls paired with their success flag. -/
def propagate (fails : ApiCall → Bool) (data : WebhookData)
    (change : LabelordChange) :
    Ignores → List String → Ignores × List (ApiCall × Bool)
  | ig, [] => (ig, [])
  | ig, r :: rest =>
    if r = data.repo then propagate fails data change ig rest
    else
      let ig1 := igAppend ig r change
      let res := propagate fails data change ig1 rest
      match webhookCall data r with
      | some call => (res.1, (call, !fails call) :: res.2)
      | none => res

/-- `LabelordWeb.process_label_webhook`: clean up expired records, drop
payloads from unknown repositories, consume an expected echo (removing one
matching record and propagating nothing), otherwise register the expected
echo at every peer and propagate the change. -/
def process_label_webhook (fails : ApiCall → Bool) (repos : List String)
    (now : Int) (ig : Ignores) (data : WebhookData) :
    Ignores × List (ApiCall × Bool) :=
  if data.repo ∈ repos then
    match dlookup (cleanup_ignores now ig) data.repo with
    | some l =>
      if l.any (fun c => c.eqPy (buildChange data now)) then
        (dinsert (cleanup_ignores now ig) data.repo
          (removeFirst l (buildChange data now)), [])
      else propagate fails data (buildChange data now)
        (cleanup_ignores now ig) repos
    | none =>
      propagate fails data (buildChange data now) (cleanup_ignores now ig)
        repos
  else (cleanup_ignores now ig, [])

/-- Sequential processing of several inbound notifications. -/
def processAll (fails : ApiCall → Bool) (repos : List String) (now : Int) :
    Ignores → List WebhookData → Ignores × List (ApiCall × Bool)
  | ig, [] => (ig, [])
  | ig, d :: ds =>
    let r1 := process_label_webhook fails repos now ig d
    let r2 := processAll fails repos now r1.1 ds
    (r2.1, r1.2 ++ r2.2)

theorem dlookup_map_value {α β : Type} (l : List (String × α)) (f : α → β)
    (k : String) :
    dlookup (l.map (fun p => (p.1, f p.2))) k = (dlookup l k).map f := by
  induction l with
  | nil => rfl
  | cons p rest ih =>
    by_cases hp : p.1 = k <;> simp [hp, ih]

theorem dlookup_cleanup (now : Int) (ig : Ignores) (r : String) :
    dlookup (cleanup_ignores now ig) r =
      (dlookup ig r).map (fun l => l.filter (fun c => c.is_valid now)) :=
  dlookup_map_value ig _ r

theorem propagate_fst_match (fails : ApiCall → Bool) (data : WebhookData)
    (change : LabelordChange) (ig1 : Ignores) (rest : List String)
    (r : String) :
    (match webhookCall data r with
      | some call =>
        ((propagate fails data change ig1 rest).1,
          (call, !fails call) :: (propagate fails data change ig1 rest).2)
      | none => propagate fails data change ig1 rest).1 =
      (propagate fails data change ig1 rest).1 := by
  cases webhookCall data r <;> rfl

theorem propagate_calls (fails : ApiCall → Bool) (data : WebhookData)
    (change : LabelordChange) :
    ∀ (rs : List String) (ig : Ignores),
      (propagate fails data change ig rs).2 =
        rs.filterMap (fun r =>
          if r = data.repo then none
          else (webhookCall data r).map (fun c => (c, !fails c))) := by
  intro rs
  induction rs with
  | nil => intro ig; rfl
  | cons r rest ih =>
    intro ig
    by_cases hr : r = data.repo
    · simp only [propagate, if_pos hr, List.filterMap_cons, hr, if_true]
      exact ih _
    · simp only [propagate, if_neg hr, List.filterMap_cons, hr, if_false]
      cases hc : webhookCall data r <;> simp [hc, ih]

theorem propagate_lookup_skip (fails : ApiCall → Bool) (data : WebhookData)
    (change : LabelordChange) :
    ∀ (rs : List String) (ig : Ignores) (r : String),
      r = data.repo ∨ r ∉ rs →
      dlookup (propagate fails data change ig rs).1 r = dlookup ig r := by
  intro rs
  induction rs with
  | nil => intro ig r _; rfl
  | cons r0 rest ih =>
    intro ig r hr
    have hr2 : r = data.repo ∨ r ∉ rest := by
      rcases hr with h | h
      · exact Or.inl h
      · exact Or.inr (fun hm => h (List.mem_cons_of_mem _ hm))
    by_cases h0 : r0 = data.repo
    · simp only [propagate, if_pos h0]
      exact ih _ _ hr2
    · simp only [propagate, if_neg h0]
      rw [propagate_fst_match]
      rw [ih _ _ hr2]
      apply dlookup_dinsert_ne
      rcases hr with h | h
      · intro he
        exact h0 (he ▸ h)
      · intro he
        exact h (he ▸ List.mem_cons_self _ _)

theorem propagate_lookup_mem (fails : ApiCall → Bool) (data : WebhookData)
    (change : LabelordChange) :
    ∀ (rs : List String) (ig : Ignores) (r : String), rs.Nodup → r ∈ rs →
      r ≠ data.repo →
      dlookup (propagate fails data change ig rs).1 r =
        some ((dlookup ig r).getD [] ++ [change]) := by
  intro rs
  induction rs with
  | nil => intro ig r _ hm; cases hm
  | cons r0 rest ih =>
    intro ig r hnd hmem hne
    rcases List.nodup_cons.1 hnd with ⟨h0r, hndr⟩
    rcases List.mem_cons.1 hmem with he | he
    · subst he
      simp only [propagate, if_neg hne]
      rw [propagate_fst_match]
      rw [propagate_lookup_skip _ _ _ _ _ _ (Or.inr h0r)]
      exact dlookup_dinsert_self _ _ _
    · by_cases h0 : r0 = data.repo
      · simp only [propagate, if_pos h0]
        exact ih _ _ hndr he hne
      · simp only [propagate, if_neg h0]
        rw [propagate_fst_match]
        rw [ih _ _ hndr he hne]
        have hner0 : r ≠ r0 := fun h => h0r (h ▸ he)
        rw [show dlookup (igAppend ig r0 change) r = dlookup ig r from
          dlookup_dinsert_ne _ _ _ _ hner0]

theorem propagate_state_indep (fails1 fails2 : ApiCall → Bool)
    (data : WebhookData) (change : LabelordChange) :
    ∀ (rs : List String) (ig : Ignores),
      (propagate fails1 data change ig rs).1 =
        (propagate fails2 data change ig rs).1 := by
  intro rs
  induction rs with
  | nil => intro ig; rfl
  | cons r0 rest ih =>
    intro ig
    by_cases h0 : r0 = data.repo
    · simp only [propagate, if_pos h0]
      exact ih _
    · simp only [propagate, if_neg h0]
      rw [propagate_fst_match, propagate_fst_match]
      exact ih _

theorem removeFirst_countP (c : LabelordChange) :
    ∀ l : List LabelordChange, l.any (fun x => x.eqPy c) →
      (removeFirst l c).countP (fun x => x.eqPy c) + 1 =
        l.countP (fun x => x.eqPy c) := by
  intro l
  induction l with
  | nil => intro h; cases h
  | cons x xs ih =>
    intro hany
    by_cases hx : x.eqPy c
    · simp only [removeFirst, if_pos hx, List.countP_cons, hx]
      rfl
    · have hx0 : x.eqPy c = false := by simpa using hx
      have hany2 : xs.any (fun y => y.eqPy c) = true := by
        rcases List.any_eq_true.1 hany with ⟨y, hy, hyc⟩
        rcases List.mem_cons.1 hy with he | he
        · subst he; rw [hyc] at hx0; cases hx0
        · exact List.any_eq_true.2 ⟨y, he, hyc⟩
      simp [removeFirst, hx0, List.countP_cons]
      exact ih hany2

/-- The suppression test that `process_label_webhook` performs after the
maintenance purge: is a structurally matching record still registered for
the originating repository? -/
def expectedEcho (now : Int) (ig : Ignores) (data : WebhookData) : Bool :=
  match dlookup (cleanup_ignores now ig) data.repo with
  | some l => l.any (fun c => c.eqPy (buildChange data now))
  | none => false

theorem process_genuine (fails : ApiCall → Bool) (repos : List String)
    (now : Int) (ig : Ignores) (data : WebhookData)
    (h : data.repo ∈ repos) (hgen : expectedEcho now ig data = false) :
    process_label_webhook fails repos now ig data =
      propagate fails data (buildChange data now) (cleanup_ignores now ig)
        repos := by
  unfold process_label_webhook
  rw [if_pos h]
  unfold expectedEcho at hgen
  cases hl : dlookup (cleanup_ignores now ig) data.repo with
  | none => rfl
  | some l =>
    rw [hl] at hgen
    have hgen2 : (l.any fun c => c.eqPy (buildChange data now)) = false := hgen
    show (if (l.any fun c => c.eqPy (buildChange data now)) = true then
        (dinsert (cleanup_ignores now ig) data.repo
          (removeFirst l (buildChange data now)), [])
      else propagate fails data (buildChange data now)
        (cleanup_ignores now ig) repos) = _
    rw [hgen2]
    simp

theorem process_suppressed (fails : ApiCall → Bool) (repos : List String)
    (now : Int) (ig : Ignores) (data : WebhookData)
    (h : data.repo ∈ repos) {l : List LabelordChange}
    (hl : dlookup (cleanup_ignores now ig) data.repo = some l)
    (hm : l.any (fun c => c.eqPy (buildChange data now)) = true) :
    process_label_webhook fails repos now ig data =
      (dinsert (cleanup_ignores now ig) data.repo
        (removeFirst l (buildChange data now)), []) := by
  unfold process_label_webhook
  rw [if_pos h]
  rw [hl]
  show (if (l.any fun c => c.eqPy (buildChange data now)) = true then
      (dinsert (cleanup_ignores now ig) data.repo
        (removeFirst l (buildChange data now)), [])
    else propagate fails data (buildChange data now)
      (cleanup_ignores now ig) repos) = _
  rw [if_pos hm]

theorem eqPy_iff (c d : LabelordChange) :
    c.eqPy d = true ↔
      (c.action = d.action ∧ c.name = d.name ∧ c.color = d.color ∧
        c.old_name = d.old_name) := by
  unfold LabelordChange.eqPy LabelordChange.tuple
  simp [Prod.ext_iff]

theorem eqPy_symm_true {c d : LabelordChange} (h : c.eqPy d = true) :
    d.eqPy c = true := by
  rw [eqPy_iff] at h ⊢
  exact ⟨h.1.symm, h.2.1.symm, h.2.2.1.symm, h.2.2.2.symm⟩

theorem buildChange_timestamp (data : WebhookData) (now : Int) :
    (buildChange data now).timestamp = now := by
  unfold buildChange LabelordChange.make
  cases data.changesNameFrom
  · rfl
  · by_cases h : data.action = "edited" <;> simp [h]

theorem buildChange_created {data : WebhookData} (now : Int)
    (hact : data.action = "created") :
    buildChange data now =
      LabelordChange.make "created" data.labelName data.labelColor now := by
  unfold buildChange
  rw [hact]
  cases data.changesNameFrom
  · rfl
  · simp

theorem eqPy_make_make (a n c : String) (t1 t2 : Int) :
    (LabelordChange.make a n c t1).eqPy (LabelordChange.make a n c t2) =
      true := by
  simp [LabelordChange.eqPy, LabelordChange.tuple, LabelordChange.make]

theorem filterMap_if_eq {β : Type} (origin : String) (g : String → Option β)
    (f : String → β) (hg : ∀ r, r ≠ origin → g r = some (f r)) :
    ∀ rs : List String,
      rs.filterMap (fun r => if r = origin then none else g r) =
        (rs.filter (fun r => r ≠ origin)).map f := by
  intro rs
  induction rs with
  | nil => rfl
  | cons r rest ih =>
    by_cases hr : r = origin
    · simp [List.filterMap_cons, List.filter_cons, hr, ih]
    · simp [List.filterMap_cons, List.filter_cons, hr, hg r hr, ih]

theorem filter_idem (p : LabelordChange → Bool) (l : List LabelordChange) :
    (l.filter p).filter p = l.filter p := by
  rw [List.filter_filter]
  apply List.filter_congr
  intro a _
  exact Bool.and_self _

/-- The notification GitHub sends on peer `r` after the relay creates the
label there. -/
def echoData (name color r : String) : WebhookData :=
  ⟨"created", name, color, r, none⟩

theorem processAll_suppressed (fails2 : ApiCall → Bool) (repos : List String)
    (now2 : Int) (name color : String) :
    ∀ (peers : List String) (ig : Ignores), peers.Nodup →
      (∀ r ∈ peers, r ∈ repos) →
      (∀ r ∈ peers, ∃ l, dlookup ig r = some l ∧
        (l.filter (fun c => c.is_valid now2)).any
          (fun c =>
            c.eqPy (LabelordChange.make "created" name color now2)) = true) →
      (processAll fails2 repos now2 ig
        (peers.map (echoData name color))).2 = [] := by
  intro peers
  induction peers with
  | nil => intro ig _ _ _; rfl
  | cons B rest ih =>
    intro ig hnd hsub hinv
    rcases List.nodup_cons.1 hnd with ⟨hBr, hndr⟩
    rcases hinv B (List.mem_cons_self _ _) with ⟨l, hlook, hany⟩
    have hBrepos : B ∈ repos := hsub B (List.mem_cons_self _ _)
    have hecho : buildChange (echoData name color B) now2 =
        LabelordChange.make "created" name color now2 :=
      buildChange_created now2 rfl
    have hclean : dlookup (cleanup_ignores now2 ig)
        (echoData name color B).repo =
        some (l.filter (fun c => c.is_valid now2)) := by
      show dlookup (cleanup_ignores now2 ig) B = _
      rw [dlookup_cleanup, hlook]
      rfl
    have hany2 : (l.filter (fun c => c.is_valid now2)).any
        (fun c => c.eqPy (buildChange (echoData name color B) now2)) =
          true := by
      rw [hecho]
      exact hany
    have hstep := process_suppressed fails2 repos now2 ig
      (echoData name color B) hBrepos hclean hany2
    rw [List.map_cons]
    show ((process_label_webhook fails2 repos now2 ig
        (echoData name color B)).2 ++
      (processAll fails2 repos now2
        (process_label_webhook fails2 repos now2 ig
          (echoData name color B)).1
        (rest.map (echoData name color))).2) = []
    rw [hstep]
    show ([] : List (ApiCall × Bool)) ++ _ = []
    rw [List.nil_append]
    apply ih _ hndr (fun r hr => hsub r (List.mem_cons_of_mem _ hr))
    intro r hr
    rcases hinv r (List.mem_cons_of_mem _ hr) with ⟨lr, hlr, hanyr⟩
    refine ⟨lr.filter (fun c => c.is_valid now2), ?_, ?_⟩
    · have hne : r ≠ (echoData name color B).repo := by
        show r ≠ B
        intro he
        exact hBr (he ▸ hr)
      rw [dlookup_dinsert_ne _ _ _ _ hne, dlookup_cleanup, hlr]
      rfl
    · rw [filter_idem]
      exact hanyr

/-- The records of one repository that survive the purge of entries aged
ten seconds or more. -/
def purgedRecords (now : Int) (ig : Ignores) (repo : String) :
    List LabelordChange :=
  ((dlookup ig repo).getD []).filter (fun c => c.is_valid now)

/-- Claim C6: the echo-consumption check first purges the repository's
records aged 10 seconds or more; if a structural match remains it removes
exactly one matching record and suppresses the notification (no calls);
otherwise the notification is genuine and is propagated to every peer; in
particular, when every structurally matching record is at least 10 seconds
old, the notification is treated as genuine and re-propagated. -/
theorem spec_c6 (fails : ApiCall → Bool) (repos : List String) (now : Int)
    (ig : Ignores) (data : WebhookData) (h : data.repo ∈ repos) :
    ((purgedRecords now ig data.repo).any
        (fun c => c.eqPy (buildChange data now)) = true →
      (process_label_webhook fails repos now ig data).2 = [] ∧
      dlookup (process_label_webhook fails repos now ig data).1 data.repo =
        some (removeFirst (purgedRecords now ig data.repo)
          (buildChange data now)) ∧
      (removeFirst (purgedRecords now ig data.repo)
            (buildChange data now)).countP
            (fun c => c.eqPy (buildChange data now)) + 1 =
        (purgedRecords now ig data.repo).countP
          (fun c => c.eqPy (buildChange data now))) ∧
    ((purgedRecords now ig data.repo).any
        (fun c => c.eqPy (buildChange data now)) = false →
      (process_label_webhook fails repos now ig data).2 =
        repos.filterMap (fun r =>
          if r = data.repo then none
          else (webhookCall data r).map (fun c => (c, !fails c)))) ∧
    ((∀ c ∈ (dlookup ig data.repo).getD [],
        c.eqPy (buildChange data now) = true → c.timestamp ≤ now - 10) →
      (process_label_webhook fails repos now ig data).2 =
        repos.filterMap (fun r =>
          if r = data.repo then none
          else (webhookCall data r).map (fun c => (c, !fails c)))) := by
  have hclean : dlookup (cleanup_ignores now ig) data.repo =
      (dlookup ig data.repo).map
        (fun l => l.filter (fun c => c.is_valid now)) :=
    dlookup_cleanup now ig data.repo
  have hgenuine : (purgedRecords now ig data.repo).any
      (fun c => c.eqPy (buildChange data now)) = false →
      (process_label_webhook fails repos now ig data).2 =
        repos.filterMap (fun r =>
          if r = data.repo then none
          else (webhookCall data r).map (fun c => (c, !fails c))) := by
    intro hany
    have hexp : expectedEcho now ig data = false := by
      unfold expectedEcho
      cases hraw : dlookup ig data.repo with
      | none =>
        rw [hclean, hraw]
        rfl
      | some l0 =>
        rw [hclean, hraw]
        show (l0.filter (fun c => c.is_valid now)).any
          (fun c => c.eqPy (buildChange data now)) = false
        unfold purgedRecords at hany
        rw [hraw] at hany
        exact hany
    rw [process_genuine fails repos now ig data h hexp, propagate_calls]
  refine ⟨?_, hgenuine, ?_⟩
  · intro hany
    have hl : dlookup (cleanup_ignores now ig) data.repo =
        some (purgedRecords now ig data.repo) := by
      cases hraw : dlookup ig data.repo with
      | none =>
        exfalso
        unfold purgedRecords at hany
        rw [hraw] at hany
        cases hany
      | some l0 =>
        rw [hclean, hraw]
        unfold purgedRecords
        rw [hraw]
        rfl
    have hstep := process_suppressed fails repos now ig data h hl hany
    rw [hstep]
    refine ⟨rfl, ?_, removeFirst_countP _ _ hany⟩
    rw [show (dinsert (cleanup_ignores now ig) data.repo
        (removeFirst (purgedRecords now ig data.repo)
          (buildChange data now)), ([] : List (ApiCall × Bool))).1 =
      dinsert (cleanup_ignores now ig) data.repo
        (removeFirst (purgedRecords now ig data.repo)
          (buildChange data now)) from rfl]
    exact dlookup_dinsert_self _ _ _
  · intro hexp
    apply hgenuine
    cases hh : (purgedRecords now ig data.repo).any
        (fun c => c.eqPy (buildChange data now)) with
    | false => rfl
    | true =>
      exfalso
      rcases List.any_eq_true.1 hh with ⟨c, hc, heq⟩
      unfold purgedRecords at hc
      rcases List.mem_filter.1 hc with ⟨hcm, hcv⟩
      have h1 := hexp c hcm heq
      unfold LabelordChange.is_valid at hcv
      simp at hcv
      omega

/-- Witness for claim C6: a valid and an expired record for the origin. -/
theorem spec_c6_witness :
    ("a/a" : String) ∈ ["a/a", "b/b"] ∧
    (((purgedRecords 20
        [("a/a",
          [⟨"created", "bug", some "f00", none, 15⟩,
            ⟨"created", "bug", some "f00", none, 5⟩])] "a/a").any
        (fun c => c.eqPy (buildChange ⟨"created", "bug", "f00", "a/a", none⟩
          20)) = true →
      (process_label_webhook (fun _ => false) ["a/a", "b/b"] 20
        [("a/a",
          [⟨"created", "bug", some "f00", none, 15⟩,
            ⟨"created", "bug", some "f00", none, 5⟩])]
        ⟨"created", "bug", "f00", "a/a", none⟩).2 = [] ∧
      dlookup (process_label_webhook (fun _ => false) ["a/a", "b/b"] 20
        [("a/a",
          [⟨"created", "bug", some "f00", none, 15⟩,
            ⟨"created", "bug", some "f00", none, 5⟩])]
        ⟨"created", "bug", "f00", "a/a", none⟩).1 "a/a" =
        some (removeFirst (purgedRecords 20
          [("a/a",
            [⟨"created", "bug", some "f00", none, 15⟩,
              ⟨"created", "bug", some "f00", none, 5⟩])] "a/a")
          (buildChange ⟨"created", "bug", "f00", "a/a", none⟩ 20)) ∧
      (removeFirst (purgedRecords 20
            [("a/a",
              [⟨"created", "bug", some "f00", none, 15⟩,
                ⟨"created", "bug", some "f00", none, 5⟩])] "a/a")
            (buildChange ⟨"created", "bug", "f00", "a/a", none⟩ 20)).countP
            (fun c => c.eqPy (buildChange ⟨"created", "bug", "f00", "a/a",
              none⟩ 20)) + 1 =
        (purgedRecords 20
          [("a/a",
            [⟨"created", "bug", some "f00", none, 15⟩,
              ⟨"created", "bug", some "f00", none, 5⟩])] "a/a").countP
          (fun c => c.eqPy (buildChange ⟨"created", "bug", "f00", "a/a",
            none⟩ 20))) ∧
    ((purgedRecords 20
        [("a/a",
          [⟨"created", "bug", some "f00", none, 15⟩,
            ⟨"created", "bug", some "f00", none, 5⟩])] "a/a").any
        (fun c => c.eqPy (buildChange ⟨"created", "bug", "f00", "a/a", none⟩
          20)) = false →
      (process_label_webhook (fun _ => false) ["a/a", "b/b"] 20
        [("a/a",
          [⟨"created", "bug", some "f00", none, 15⟩,
            ⟨"created", "bug", some "f00", none, 5⟩])]
        ⟨"created", "bug", "f00", "a/a", none⟩).2 =
        ["a/a", "b/b"].filterMap (fun r =>
          if r = (WebhookData.mk "created" "bug" "f00" "a/a" none).repo
          then none
          else (webhookCall ⟨"created", "bug", "f00", "a/a", none⟩ r).map
            (fun c => (c, !(fun _ => false) c)))) ∧
    ((∀ c ∈ (dlookup
        [("a/a",
          ([⟨"created", "bug", some "f00", none, 15⟩,
            ⟨"created", "bug", some "f00", none, 5⟩] :
            List LabelordChange))] "a/a").getD [],
        c.eqPy (buildChange ⟨"created", "bug", "f00", "a/a", none⟩ 20) =
          true → c.timestamp ≤ 20 - 10) →
      (process_label_webhook (fun _ => false) ["a/a", "b/b"] 20
        [("a/a",
          [⟨"created", "bug", some "f00", none, 15⟩,
            ⟨"created", "bug", some "f00", none, 5⟩])]
        ⟨"created", "bug", "f00", "a/a", none⟩).2 =
        ["a/a", "b/b"].filterMap (fun r =>
          if r = (WebhookData.mk "created" "bug" "f00" "a/a" none).repo
          then none
          else (webhookCall ⟨"created", "bug", "f00", "a/a", none⟩ r).map
            (fun c => (c, !(fun _ => false) c))))) :=
  ⟨by decide,
    spec_c6 (fun _ => false) ["a/a", "b/b"] 20
      [("a/a",
        [⟨"created", "bug", some "f00", none, 15⟩,
          ⟨"created", "bug", some "f00", none, 5⟩])]
      ⟨"created", "bug", "f00", "a/a", none⟩ (by decide)⟩

/-- Claim C7 fails as stated: for an `edited` notification renaming `old`
to `new`, the built record does not carry the resulting name `new` in its
name component with previous name `old` — the code stores the previous name
in `name` and leaves `old_name` unset. -/
theorem spec_c7_counterexample :
    ¬ ((buildChange ⟨"edited", "new", "ff0000", "o/r", some "old"⟩ 0).name =
        "new" ∧
      (buildChange ⟨"edited", "new", "ff0000", "o/r", some "old"⟩ 0).old_name =
        some "old") := by
  decide

/-- Claim C7 (amended): the record built from a notification consists of
the action, the label name — replaced by the previous name when an `edited`
notification carries a rename — the color (absent for `deleted`), and a
previous-name component that always stays absent; two records are equal
under the guard's equality exactly when their (action, name, color,
old_name) components agree, the timestamps being ignored. -/
theorem spec_c7_amended (data : WebhookData) (now : Int)
    (c d : LabelordChange) :
    (buildChange data now).action = data.action ∧
    (buildChange data now).name =
      (match data.changesNameFrom with
       | some fromName =>
         if data.action = "edited" then fromName else data.labelName
       | none => data.labelName) ∧
    (buildChange data now).color =
      (if data.action = "deleted" then none else some data.labelColor) ∧
    (buildChange data now).old_name = none ∧
    (buildChange data now).timestamp = now ∧
    (c.eqPy d = true ↔
      (c.action = d.action ∧ c.name = d.name ∧ c.color = d.color ∧
        c.old_name = d.old_name)) := by
  refine ⟨?_, ?_, ?_, ?_, buildChange_timestamp data now, eqPy_iff c d⟩ <;>
    · unfold buildChange LabelordChange.make
      cases data.changesNameFrom
      · simp
      · by_cases h : data.action = "edited" <;> simp [h]

/-- Claim C1: a genuine `created` notification from member A is propagated
by exactly one create call to each other member, in order; and the echo
notifications subsequently arriving from all the peers within the
suppression window are all consumed, causing zero further propagation
calls. -/
theorem spec_c1 (fails fails2 : ApiCall → Bool) (repos : List String)
    (now now2 : Int) (ig : Ignores) (data : WebhookData)
    (hnd : repos.Nodup) (hA : data.repo ∈ repos)
    (hact : data.action = "created")
    (hgen : expectedEcho now ig data = false)
    (hwin : now2 < now + 10) :
    (process_label_webhook fails repos now ig data).2 =
      (repos.filter (fun r => r ≠ data.repo)).map
        (fun r =>
          (ApiCall.createLabel r data.labelName data.labelColor,
            !fails (ApiCall.createLabel r data.labelName data.labelColor))) ∧
    (processAll fails2 repos now2
        (process_label_webhook fails repos now ig data).1
        ((repos.filter (fun r => r ≠ data.repo)).map
          (echoData data.labelName data.labelColor))).2 = [] := by
  have hchange := buildChange_created now hact
  have hproc := process_genuine fails repos now ig data hA hgen
  constructor
  · rw [hproc, propagate_calls]
    apply filterMap_if_eq
    intro r hr
    unfold webhookCall
    rw [hact]
    simp
  · apply processAll_suppressed
    · exact hnd.filter _
    · intro r hr
      exact (List.mem_filter.1 hr).1
    · intro r hr
      rcases List.mem_filter.1 hr with ⟨hrm, hrne⟩
      have hrne2 : r ≠ data.repo := by simpa using hrne
      refine ⟨(dlookup (cleanup_ignores now ig) r).getD [] ++
        [buildChange data now], ?_, ?_⟩
      · rw [hproc]
        exact propagate_lookup_mem fails data _ repos _ r hnd hrm hrne2
      · apply List.any_eq_true.2
        refine ⟨buildChange data now, ?_, ?_⟩
        · apply List.mem_filter.2
          refine ⟨List.mem_append_right _ (by simp), ?_⟩
          show (buildChange data now).is_valid now2 = true
          unfold LabelordChange.is_valid
          rw [buildChange_timestamp]
          simp
          omega
        · rw [hchange]
          exact eqPy_make_make _ _ _ _ _

/-- Witness for claim C1: the three-repository replica set of the
specification's echo-termination scenario. -/
theorem spec_c1_witness :
    (["a/a", "b/b", "c/c"] : List String).Nodup ∧
    ("a/a" : String) ∈ ["a/a", "b/b", "c/c"] ∧
    (WebhookData.mk "created" "bug" "ee0701" "a/a" none).action = "created" ∧
    expectedEcho 0 [] ⟨"created", "bug", "ee0701", "a/a", none⟩ = false ∧
    (5 : Int) < 0 + 10 ∧
    ((process_label_webhook (fun _ => false) ["a/a", "b/b", "c/c"] 0 []
        ⟨"created", "bug", "ee0701", "a/a", none⟩).2 =
      (["a/a", "b/b", "c/c"].filter
          (fun r => r ≠ (WebhookData.mk "created" "bug" "ee0701" "a/a"
            none).repo)).map
        (fun r =>
          (ApiCall.createLabel r "bug" "ee0701",
            !(fun _ => false) (ApiCall.createLabel r "bug" "ee0701"))) ∧
    (processAll (fun _ => false) ["a/a", "b/b", "c/c"] 5
        (process_label_webhook (fun _ => false) ["a/a", "b/b", "c/c"] 0 []
          ⟨"created", "bug", "ee0701", "a/a", none⟩).1
        ((["a/a", "b/b", "c/c"].filter
            (fun r => r ≠ (WebhookData.mk "created" "bug" "ee0701" "a/a"
              none).repo)).map
          (echoData "bug" "ee0701"))).2 = []) :=
  ⟨by decide, by decide, by decide, by decide, by decide,
    spec_c1 _ _ _ _ _ _ _ (by decide) (by decide) (by decide) (by decide)
      (by decide)⟩

/-- Claim C10: a failed propagation to a peer does not remove the
expected-echo record registered for that peer just before the call (the
guard state does not depend on call outcomes at all), so a structurally
equal genuine notification from that peer arriving within the 10-second
window is consumed as an echo and not propagated. -/
theorem spec_c10 (fails fails2 fails3 : ApiCall → Bool) (repos : List String)
    (now now2 : Int) (ig : Ignores) (data : WebhookData) (B : String)
    (hnd : repos.Nodup) (hA : data.repo ∈ repos) (hB : B ∈ repos)
    (hBne : B ≠ data.repo)
    (hgen : expectedEcho now ig data = false)
    (_hfail : ∀ call, webhookCall data B = some call → fails call = true)
    (hwin : now2 < now + 10) :
    (process_label_webhook fails repos now ig data).1 =
      (process_label_webhook fails3 repos now ig data).1 ∧
    (∃ l, dlookup (process_label_webhook fails repos now ig data).1 B =
        some l ∧ buildChange data now ∈ l) ∧
    (∀ data2 : WebhookData, data2.repo = B →
      (buildChange data2 now2).eqPy (buildChange data now) = true →
      (process_label_webhook fails2 repos now2
        (process_label_webhook fails repos now ig data).1 data2).2 = []) := by
  have hproc := process_genuine fails repos now ig data hA hgen
  have hlookB : dlookup (process_label_webhook fails repos now ig data).1 B =
      some ((dlookup (cleanup_ignores now ig) B).getD [] ++
        [buildChange data now]) := by
    rw [hproc]
    exact propagate_lookup_mem fails data _ repos _ B hnd hB hBne
  refine ⟨?_, ?_, ?_⟩
  · rw [hproc, process_genuine fails3 repos now ig data hA hgen]
    exact propagate_state_indep _ _ _ _ _ _
  · exact ⟨_, hlookB, List.mem_append_right _ (by simp)⟩
  · intro data2 hrepo heq
    have hmemB : data2.repo ∈ repos := by
      rw [hrepo]
      exact hB
    have hclean2 : dlookup (cleanup_ignores now2
          (process_label_webhook fails repos now ig data).1) data2.repo =
        some (((dlookup (cleanup_ignores now ig) B).getD [] ++
          [buildChange data now]).filter (fun c => c.is_valid now2)) := by
      rw [dlookup_cleanup, hrepo, hlookB]
      rfl
    have hany : (((dlookup (cleanup_ignores now ig) B).getD [] ++
        [buildChange data now]).filter (fun c => c.is_valid now2)).any
        (fun c => c.eqPy (buildChange data2 now2)) = true := by
      apply List.any_eq_true.2
      refine ⟨buildChange data now, ?_, eqPy_symm_true heq⟩
      apply List.mem_filter.2
      refine ⟨List.mem_append_right _ (by simp), ?_⟩
      show (buildChange data now).is_valid now2 = true
      unfold LabelordChange.is_valid
      rw [buildChange_timestamp]
      simp
      omega
    rw [process_suppressed fails2 repos now2 _ data2 hmemB hclean2 hany]

/-- Witness for claim C10: a two-repository set where the propagated create
to the peer fails, followed by the peer's echo five seconds later. -/
theorem spec_c10_witness :
    (["a/a", "b/b"] : List String).Nodup ∧
    ("a/a" : String) ∈ ["a/a", "b/b"] ∧
    ("b/b" : String) ∈ ["a/a", "b/b"] ∧
    ("b/b" : String) ≠ "a/a" ∧
    expectedEcho 0 [] ⟨"created", "bug", "ee0701", "a/a", none⟩ = false ∧
    (∀ call, webhookCall ⟨"created", "bug", "ee0701", "a/a", none⟩ "b/b" =
      some call → (fun _ => true) call = true) ∧
    (5 : Int) < 0 + 10 ∧
    ((process_label_webhook (fun _ => true) ["a/a", "b/b"] 0 []
        ⟨"created", "bug", "ee0701", "a/a", none⟩).1 =
      (process_label_webhook (fun _ => false) ["a/a", "b/b"] 0 []
        ⟨"created", "bug", "ee0701", "a/a", none⟩).1 ∧
    (∃ l, dlookup (process_label_webhook (fun _ => true) ["a/a", "b/b"] 0 []
        ⟨"created", "bug", "ee0701", "a/a", none⟩).1 "b/b" = some l ∧
      buildChange ⟨"created", "bug", "ee0701", "a/a", none⟩ 0 ∈ l) ∧
    (∀ data2 : WebhookData, data2.repo = "b/b" →
      (buildChange data2 5).eqPy
        (buildChange ⟨"created", "bug", "ee0701", "a/a", none⟩ 0) = true →
      (process_label_webhook (fun _ => false) ["a/a", "b/b"] 5
        (process_label_webhook (fun _ => true) ["a/a", "b/b"] 0 []
          ⟨"created", "bug", "ee0701", "a/a", none⟩).1 data2).2 = [])) :=
  ⟨by decide, by decide, by decide, by decide, by decide, by decide,
    by decide,
    spec_c10 _ _ _ _ _ _ _ _ _ (by decide) (by decide) (by decide)
      (by decide) (by decide) (by decide) (by decide)⟩

/-! ## Signature verification and the notification endpoint
(`GitHub.webhook_verify_signature`, `hook_accept`) -/

/-- Truncation to a 32-bit word. -/
def w32 (x : Nat) : Nat := x % 4294967296

/-- 32-bit left rotation (input below `2 ^ 32`). -/
def rotl32 (n x : Nat) : Nat := w32 ((x <<< n) ||| (x >>> (32 - n)))

/-- Big-endian 4-byte groups to 32-bit words. -/
def toWordsBE : List Nat → List Nat
  | b0 :: b1 :: b2 :: b3 :: rest =>
    (((b0 * 256 + b1) * 256 + b2) * 256 + b3) :: toWordsBE rest
  | _ => []

/-- A 32-bit word as 4 big-endian bytes. -/
def wordToBytesBE (x : Nat) : List Nat :=
  [x / 16777216 % 256, x / 65536 % 256, x / 256 % 256, x % 256]

/-- The bit length of the message as 8 big-endian bytes. -/
def bitLenBytesBE (len : Nat) : List Nat :=
  [len * 8 / 72057594037927936 % 256, len * 8 / 281474976710656 % 256,
    len * 8 / 1099511627776 % 256, len * 8 / 4294967296 % 256,
    len * 8 / 16777216 % 256, len * 8 / 65536 % 256, len * 8 / 256 % 256,
    len * 8 % 256]

/-- SHA-1 padding: `0x80`, zeros to 56 mod 64, 8-byte bit length. -/
def sha1Pad (msg : List Nat) : List Nat :=
  msg ++ [128] ++ List.replicate ((119 - msg.length % 64) % 64) 0 ++
    bitLenBytesBE msg.length

/-- SHA-1 round constants. -/
def sha1K (i : Nat) : Nat :=
  if i < 20 then 1518500249
  else if i < 40 then 1859775393
  else if i < 60 then 2400959708
  else 3395469782

/-- SHA-1 round functions. -/
def sha1F (i b c d : Nat) : Nat :=
  if i < 20 then (b &&& c) ||| ((b ^^^ 4294967295) &&& d)
  else if i < 40 then b ^^^ c ^^^ d
  else if i < 60 then (b &&& c) ||| (b &&& d) ||| (c &&& d)
  else b ^^^ c ^^^ d

/-- Message-schedule extension, appending `k` more words. -/
def sha1Extend (w : List Nat) : Nat → List Nat
  | 0 => w
  | k + 1 =>
    sha1Extend
      (w ++ [rotl32 1
        ((w.getD (w.length - 3) 0) ^^^ (w.getD (w.length - 8) 0) ^^^
          (w.getD (w.length - 14) 0) ^^^ (w.getD (w.length - 16) 0))]) k

/-- One SHA-1 block compression. -/
def sha1Compress (h : Nat × Nat × Nat × Nat × Nat) (chunk : List Nat) :
    Nat × Nat × Nat × Nat × Nat :=
  let w := sha1Extend (toWordsBE chunk) 64
  let st := (List.range 80).foldl
    (fun (st : Nat × Nat × Nat × Nat × Nat) i =>
      (w32 (rotl32 5 st.1 + sha1F i st.2.1 st.2.2.1 st.2.2.2.1 +
          st.2.2.2.2 + sha1K i + w.getD i 0),
        st.1, rotl32 30 st.2.1, st.2.2.1, st.2.2.2.1)) h
  (w32 (h.1 + st.1), w32 (h.2.1 + st.2.1), w32 (h.2.2.1 + st.2.2.1),
    w32 (h.2.2.2.1 + st.2.2.2.1), w32 (h.2.2.2.2 + st.2.2.2.2))

/-- Split into 64-byte chunks (fuelled, total). -/
def chunksGo : Nat → List Nat → List (List Nat)
  | 0, _ => []
  | _, [] => []
  | fuel + 1, l => l.take 64 :: chunksGo fuel (l.drop 64)

/-- SHA-1 of a byte string (`hashlib.sha1`). -/
def sha1 (msg : List Nat) : List Nat :=
  let padded := sha1Pad msg
  let hs := (chunksGo padded.length padded).foldl sha1Compress
    (1732584193, 4023233417, 2562383102, 271733878, 3285377520)
  wordToBytesBE hs.1 ++ wordToBytesBE hs.2.1 ++ wordToBytesBE hs.2.2.1 ++
    wordToBytesBE hs.2.2.2.1 ++ wordToBytesBE hs.2.2.2.2

/-- Lower-case hex digit. -/
def hexChar (n : Nat) : Char :=
  if n < 10 then Char.ofNat (48 + n) else Char.ofNat (87 + n)

/-- Lower-case hex of a byte string (`hexdigest`). -/
def hexDigest (bytes : List Nat) : String :=
  String.mk ((bytes.map (fun b => [hexChar (b / 16), hexChar (b % 16)])).flatten)

/-- `hmac.new(secret, data, hashlib.sha1).digest()` (RFC 2104, block size
64); the secret is the UTF-8 byte string of the configured shared secret. -/
def hmac_sha1 (secret msg : List Nat) : List Nat :=
  let k1 := if 64 < secret.length then sha1 secret else secret
  let k2 := k1 ++ List.replicate (64 - k1.length) 0
  sha1 ((k2.map (fun b => b ^^^ 92)) ++
    sha1 ((k2.map (fun b => b ^^^ 54)) ++ msg))

/-- `GitHub.webhook_verify_signature`: constant-time comparison of the
signature header against `sha1=` plus the hex HMAC-SHA1 of the raw body. -/
def webhook_verify_signature (data : List Nat) (signature : String)
    (secret : List Nat) : Bool :=
  ("sha1=" ++ hexDigest (hmac_sha1 secret data)) == signature

/-- The response of the endpoint: an empty-body 200 or a `flask.abort`. -/
inductive HookResult
  | ok (body : String)
  | halt (code : Nat)
deriving DecidableEq

/-- An inbound POST request to the notification endpoint. -/
structure HookRequest where
  signature : String
  event : String
  body : List Nat
  data : WebhookData

/-- `hook_accept`: verify the signature (else 401), dispatch on the event
header: `label` events from configured repositories are processed (empty
200 body), unknown repositories give 400, `ping` is acknowledged as a
no-op, anything else gives 400. -/
def hook_accept (fails : ApiCall → Bool) (repos : List String)
    (secret : List Nat) (now : Int) (ig : Ignores) (req : HookRequest) :
    HookResult × Ignores × List (ApiCall × Bool) :=
  if ¬ webhook_verify_signature req.body req.signature secret then
    (.halt 401, ig, [])
  else if req.event = "label" then
    if req.data.repo ∉ repos then (.halt 400, ig, [])
    else
      (.ok "", (process_label_webhook fails repos now ig req.data).1,
        (process_label_webhook fails repos now ig req.data).2)
  else if req.event = "ping" then (.ok "", ig, [])
  else (.halt 400, ig, [])

/-- Claim C8: a POST whose signature header differs from `sha1=` followed
by the hex HMAC-SHA1 of the raw body keyed by the shared secret is rejected
with 401; with a valid signature, a `label` event for a configured
repository is processed and answered with an empty 200 body (a
non-configured repository gives 400), a `ping` event is acknowledged as a
no-op, and any other event kind yields 400. -/
theorem spec_c8 (fails : ApiCall → Bool) (repos : List String)
    (secret : List Nat) (now : Int) (ig : Ignores) (req : HookRequest) :
    (req.signature ≠ "sha1=" ++ hexDigest (hmac_sha1 secret req.body) →
      hook_accept fails repos secret now ig req = (.halt 401, ig, [])) ∧
    (req.signature = "sha1=" ++ hexDigest (hmac_sha1 secret req.body) →
      (req.event = "label" → req.data.repo ∈ repos →
        hook_accept fails repos secret now ig req =
          (.ok "", (process_label_webhook fails repos now ig req.data).1,
            (process_label_webhook fails repos now ig req.data).2)) ∧
      (req.event = "label" → req.data.repo ∉ repos →
        hook_accept fails repos secret now ig req = (.halt 400, ig, [])) ∧
      (req.event = "ping" →
        hook_accept fails repos secret now ig req = (.ok "", ig, [])) ∧
      (req.event ≠ "label" → req.event ≠ "ping" →
        hook_accept fails repos secret now ig req = (.halt 400, ig, []))) := by
  constructor
  · intro hsig
    have hv : webhook_verify_signature req.body req.signature secret =
        false := by
      unfold webhook_verify_signature
      simp only [beq_eq_false_iff_ne, ne_eq]
      exact fun he => hsig he.symm
    unfold hook_accept
    rw [hv]
    simp
  · intro hsig
    have hv : webhook_verify_signature req.body req.signature secret =
        true := by
      unfold webhook_verify_signature
      rw [hsig]
      simp
    refine ⟨?_, ?_, ?_, ?_⟩
    · intro hev hrep
      unfold hook_accept
      rw [hv]
      simp [hev, hrep]
    · intro hev hrep
      unfold hook_accept
      rw [hv]
      simp [hev, hrep]
    · intro hev
      unfold hook_accept
      rw [hv]
      by_cases hlab : req.event = "label"
      · rw [hlab] at hev
        simp at hev
      · simp [hlab, hev]
    · intro hev1 hev2
      unfold hook_accept
      rw [hv]
      simp [hev1, hev2]

/-- Witness for claim C8: a ping request carrying a valid signature over an
empty body, next to a request with a wrong signature. -/
theorem spec_c8_witness :
    ("x" : String) ≠
      "sha1=" ++ hexDigest (hmac_sha1 [107, 101, 121] []) ∧
    hook_accept (fun _ => false) ["a/a"] [107, 101, 121] 0 []
      ⟨"x", "ping", [], ⟨"created", "bug", "ee0701", "a/a", none⟩⟩ =
      (.halt 401, [], []) :=
  have h := spec_c8 (fun _ => false) ["a/a"] [107, 101, 121] 0 []
    ⟨"x", "ping", [], ⟨"created", "bug", "ee0701", "a/a", none⟩⟩
  have hne : ("x" : String) ≠
      "sha1=" ++ hexDigest (hmac_sha1 [107, 101, 121] []) := by decide
  ⟨hne, h.1 hne⟩

/-! ## The reconciliation run (`RunProcessor`, `BasePrinter`) -/

/-- `GitHubError`: upstream status code and message. -/
structure GitHubError where
  status_code : Nat
  message : String
deriving DecidableEq

/-- `GitHubError.code_message`. -/
def code_message (e : GitHubError) : String :=
  Nat.repr e.status_code ++ " - " ++ e.message

/-- The remote label API as consumed by `RunProcessor` (each method either
succeeds or raises a `GitHubError`). -/
structure LabelApi where
  list_labels : String → Except GitHubError LabelMap
  create_label : String → String → String → Except GitHubError Unit
  update_label : String → String → String → String → Except GitHubError Unit
  delete_label : String → String → Except GitHubError Unit

/-- One printer event: `BasePrinter.event(event, result, repo, *args)`. -/
structure Event where
  event : String
  result : String
  repo : String
  args : List String
deriving DecidableEq

/-- `RunProcessor._process_generic`: try the call, emit `SUC` with
`(name, color)` or `ERR` with the error's code message appended. -/
def process_generic (res : Except GitHubError Unit)
    (ev slug name color : String) : Event :=
  match res with
  | .error e => ⟨ev, "ERR", slug, [name, color, code_message e]⟩
  | .ok _ => ⟨ev, "SUC", slug, [name, color]⟩

/-- `RunProcessor._run_one`: fetch the labels (an `LBL`/`ERR` event on
failure), otherwise compute the plan and process every create, update and
delete independently, in that order. -/
def run_one (api : LabelApi) (slug : String) (labels_specs : LabelMap)
    (mode : LabelMap → LabelMap → DiffMap × DiffMap × DiffMap) :
    List Event :=
  match api.list_labels slug with
  | .error e => [⟨"LBL", "ERR", slug, [code_message e]⟩]
  | .ok labels =>
    (mode labels labels_specs).1.map (fun p =>
      process_generic (api.create_label slug p.2.1 p.2.2) "ADD" slug
        p.2.1 p.2.2) ++
    (mode labels labels_specs).2.1.map (fun p =>
      process_generic (api.update_label slug p.2.1 p.2.2 p.1) "UPD" slug
        p.2.1 p.2.2) ++
    (mode labels labels_specs).2.2.map (fun p =>
      process_generic (api.delete_label slug p.2.1) "DEL" slug p.2.1 p.2.2)

/-- `BasePrinter` state: the set of touched repositories and the error
count. -/
structure BasePrinter where
  repos : List String
  errors : Nat
deriving DecidableEq

/-- `BasePrinter.event`: count an error when the result is `ERR`. -/
def printer_event (st : BasePrinter) (e : Event) : BasePrinter :=
  { st with errors := st.errors + (if e.result = "ERR" then 1 else 0) }

/-- `BasePrinter.add_repo` (a set add). -/
def add_repo (st : BasePrinter) (slug : String) : BasePrinter :=
  { st with repos := if slug ∈ st.repos then st.repos else st.repos ++ [slug] }

/-- The `for slug in slugs` loop of `RunProcessor.run`, threading the
printer state and collecting the emitted events. -/
def runGo (api : LabelApi) (labels_specs : LabelMap)
    (mode : LabelMap → LabelMap → DiffMap × DiffMap × DiffMap) :
    BasePrinter → List String → BasePrinter × List Event
  | st, [] => (st, [])
  | st, slug :: rest =>
    let evs := run_one api slug labels_specs mode
    let res := runGo api labels_specs mode
      (evs.foldl printer_event (add_repo st slug)) rest
    (res.1, evs ++ res.2)

def DEFAULT_SUCCESS_RETURN : Nat := 0

def DEFAULT_ERROR_RETURN : Nat := 10

/-- `RunProcessor.run`: process every repository in the caller's order and
return the error code exactly when the printer counted an error. -/
def run (api : LabelApi) (slugs : List String) (labels_specs : LabelMap)
    (mode : LabelMap → LabelMap → DiffMap × DiffMap × DiffMap) :
    List Event × Nat :=
  let res := runGo api labels_specs mode ⟨[], 0⟩ slugs
  (res.2,
    if res.1.errors > 0 then DEFAULT_ERROR_RETURN else DEFAULT_SUCCESS_RETURN)

theorem foldl_printer_event (evs : List Event) :
    ∀ st : BasePrinter,
      (evs.foldl printer_event st).errors =
        st.errors + evs.countP (fun e => e.result == "ERR") := by
  induction evs with
  | nil => intro st; simp
  | cons e rest ih =>
    intro st
    rw [List.foldl_cons, ih, List.countP_cons]
    unfold printer_event
    by_cases he : e.result = "ERR"
    · simp [he]
      omega
    · simp [he]

theorem runGo_spec (api : LabelApi) (labels_specs : LabelMap)
    (mode : LabelMap → LabelMap → DiffMap × DiffMap × DiffMap) :
    ∀ (slugs : List String) (st : BasePrinter),
      (runGo api labels_specs mode st slugs).2 =
        slugs.flatMap (fun slug => run_one api slug labels_specs mode) ∧
      (runGo api labels_specs mode st slugs).1.errors =
        st.errors +
          (slugs.flatMap (fun slug => run_one api slug labels_specs mode)
            ).countP (fun e => e.result == "ERR") := by
  intro slugs
  induction slugs with
  | nil => intro st; exact ⟨rfl, by simp [runGo]⟩
  | cons slug rest ih =>
    intro st
    have h1 := ih ((run_one api slug labels_specs mode).foldl printer_event
      (add_repo st slug))
    constructor
    · show (run_one api slug labels_specs mode) ++ _ = _
      rw [h1.1, List.flatMap_cons]
    · show (runGo api labels_specs mode _ rest).1.errors = _
      rw [h1.2, foldl_printer_event]
      have h2 : (add_repo st slug).errors = st.errors := rfl
      rw [h2, List.flatMap_cons, List.countP_append]
      omega

/-- Claim C9: the run visits every repository in the caller's order — the
event log is the concatenation, repository by repository, of each
repository's own events, so a failure in one repository or label operation
(which becomes a single `ERR` event) never erases or blocks the others —
and the result is the error code exactly when some event failed, and the
success code otherwise. -/
theorem spec_c9 (api : LabelApi) (slugs : List String)
    (labels_specs : LabelMap)
    (mode : LabelMap → LabelMap → DiffMap × DiffMap × DiffMap) :
    (run api slugs labels_specs mode).1 =
      slugs.flatMap (fun slug => run_one api slug labels_specs mode) ∧
    (∀ pre slug post, slugs = pre ++ slug :: post →
      (run api slugs labels_specs mode).1 =
        pre.flatMap (fun s => run_one api s labels_specs mode) ++
          run_one api slug labels_specs mode ++
          post.flatMap (fun s => run_one api s labels_specs mode)) ∧
    (∀ slug e, api.list_labels slug = .error e →
      run_one api slug labels_specs mode =
        [⟨"LBL", "ERR", slug, [code_message e]⟩]) ∧
    ((run api slugs labels_specs mode).2 = DEFAULT_ERROR_RETURN ↔
      ∃ e ∈ (run api slugs labels_specs mode).1, e.result = "ERR") ∧
    ((run api slugs labels_specs mode).2 = DEFAULT_SUCCESS_RETURN ↔
      ¬ ∃ e ∈ (run api slugs labels_specs mode).1, e.result = "ERR") := by
  have hspec := runGo_spec api labels_specs mode slugs ⟨[], 0⟩
  have hfst : (run api slugs labels_specs mode).1 =
      slugs.flatMap (fun slug => run_one api slug labels_specs mode) :=
    hspec.1
  have herr : (runGo api labels_specs mode ⟨[], 0⟩ slugs).1.errors =
      (slugs.flatMap (fun slug => run_one api slug labels_specs mode)
        ).countP (fun e => e.result == "ERR") := by
    rw [hspec.2]
    simp
  have hex : (runGo api labels_specs mode ⟨[], 0⟩ slugs).1.errors > 0 ↔
      ∃ e ∈ (run api slugs labels_specs mode).1, e.result = "ERR" := by
    rw [herr, hfst]
    rw [gt_iff_lt, List.countP_pos_iff]
    constructor
    · rintro ⟨e, he, hp⟩
      exact ⟨e, he, by simpa using hp⟩
    · rintro ⟨e, he, hp⟩
      exact ⟨e, he, by simpa using hp⟩
  refine ⟨hfst, ?_, ?_, ?_, ?_⟩
  · intro pre slug post hsl
    rw [hfst, hsl]
    simp [List.flatMap_append, List.flatMap_cons, List.append_assoc]
  · intro slug e he
    unfold run_one
    rw [he]
  · show (if (runGo api labels_specs mode ⟨[], 0⟩ slugs).1.errors > 0
        then DEFAULT_ERROR_RETURN else DEFAULT_SUCCESS_RETURN) =
        DEFAULT_ERROR_RETURN ↔ _
    rw [← hex]
    by_cases h : (runGo api labels_specs mode ⟨[], 0⟩ slugs).1.errors > 0
    · simp [h]
    · simp [h, DEFAULT_ERROR_RETURN, DEFAULT_SUCCESS_RETURN]
  · show (if (runGo api labels_specs mode ⟨[], 0⟩ slugs).1.errors > 0
        then DEFAULT_ERROR_RETURN else DEFAULT_SUCCESS_RETURN) =
        DEFAULT_SUCCESS_RETURN ↔ _
    rw [← hex]
    by_cases h : (runGo api labels_specs mode ⟨[], 0⟩ slugs).1.errors > 0
    · simp [h, DEFAULT_ERROR_RETURN, DEFAULT_SUCCESS_RETURN]
    · simp [h]

end Labelord
